import Mathlib

/-!
# dabug: buffered trace lines, rendered as an aligned block

A shallow embedding of `dabug.go` (package `dabug`) and `log/log.go` (package `log`).

Conventions of the embedding.

* A Go `string` is a Lean `String` (well-formed UTF-8). Go's `len(s)` is the byte length
  `String.utf8ByteSize`; the widths of `fmt` count runes, `String.length`.
* The package-level variables of `dabug` form one record, `dabug.State`. The writer is known by a
  number, and the state also keeps the list of writes made so far, one item per call of
  `fmt.Fprint`, `fmt.Fprintf` or `fmt.Fprintln`, so that "what was written, to which writer, in which order" is
  a value.
* The mutex of the logger guards the line buffer against concurrent callers; the embedding is
  sequential, so `Lock` and `Unlock` leave no trace in it.
* The standard library (`fmt`, `strings`, `path/filepath`, `runtime`) is not part of the
  repository. It is modelled by its documented behaviour, on the fragment the program uses:
  `fmt.Sprintf` returns `none` on a directive outside that fragment, and every function of the
  program that formats text therefore returns an `Option`.
-/

/-! ## Package `strings` -/

namespace strings

/-- Go's `strings.HasPrefix`. -/
def HasPrefix (s pre : String) : Bool :=
  pre.data.isPrefixOf s.data

/-- Go's `strings.TrimPrefix`: `s` without the leading `pre`, or `s` itself when `s` does not
start with `pre`. -/
def TrimPrefix (s pre : String) : String :=
  if HasPrefix s pre then ⟨s.data.drop pre.length⟩ else s

/-- Go's `strings.Join`. -/
def Join (elems : List String) (sep : String) : String :=
  match elems with
  | [] => ""
  | e :: es => es.foldl (fun acc x => acc ++ sep ++ x) e

end strings

/-! ## Package `path/filepath` (slash-separated paths) -/

namespace filepath

/-- The elements of a path: the pieces between the separators, empty ones included. -/
def elements : List Char → List (List Char)
  | [] => [[]]
  | c :: cs =>
    if c = '/' then [] :: elements cs
    else
      match elements cs with
      | [] => [[c]]
      | e :: es => (c :: e) :: es

/-- The loop of `filepath.Clean` over the elements of the path; `out` holds the elements kept so
far, the last one first. An empty element and `.` are dropped; `..` removes the element before it
when there is one to remove, is kept in a path that is not rooted, and is dropped at the root. -/
def cleanLoop (rooted : Bool) : List (List Char) → List (List Char) → List (List Char)
  | [], out => out
  | e :: es, out =>
    if e = [] ∨ e = ['.'] then cleanLoop rooted es out
    else if e = ['.', '.'] then
      match out with
      | top :: below =>
        if top = ['.', '.'] then cleanLoop rooted es (e :: out)
        else cleanLoop rooted es below
      | [] => if rooted then cleanLoop rooted es out else cleanLoop rooted es [e]
    else cleanLoop rooted es (e :: out)

/-- Go's `filepath.Clean`: the shortest path name equivalent to `path`. -/
def Clean (path : String) : String :=
  let rooted := path.data.head? = some '/'
  let kept := (cleanLoop rooted (elements path.data) []).reverse
  let body := String.mk (List.intercalate ['/'] kept)
  if rooted then "/" ++ body
  else if body = "" then "." else body

/-- Go's `filepath.Dir`: everything up to and including the last separator, cleaned. -/
def Dir (path : String) : String :=
  Clean ⟨(path.data.reverse.dropWhile (fun c => c ≠ '/')).reverse⟩

end filepath

/-! ## Package `runtime`: the call stack -/

namespace runtime

/-- One frame of the call stack, as `runtime.Frame` gives it. -/
structure Frame where
  File : String
  Function : String
  Line : Int
deriving DecidableEq, Repr

/-- The zero `Frame`, returned when the stack has no frame at the depth asked for. -/
def Frame.zero : Frame := ⟨"", "", 0⟩

/-- Go's `runtime.Callers(skip, pcs)` with room for one program counter, followed by
`CallersFrames` and `Next`. The stack `stk` is that of the function calling `Callers`, innermost
frame first; `skip = 1` stands for the caller of `Callers`. With `skip = 0` Go reports the frame
of `Callers` itself, which the program never asks for and the model leaves at the zero frame. -/
def Callers (skip : Nat) (stk : List Frame) : Frame :=
  match skip with
  | 0 => Frame.zero
  | k + 1 => (stk.get? k).getD Frame.zero

/-- Go's `runtime.Caller(skip)`, reduced to the file it reports; `skip = 0` stands for the caller
of `Caller`. -/
def Caller (skip : Nat) (stk : List Frame) : String :=
  ((stk.get? skip).getD Frame.zero).File

end runtime

/-! ## Package `fmt` -/

namespace fmt

/-- A value of dynamic type (Go's `any`) handed over to be dumped. The program looks at such a
value through the verb `%#v` only, so the value is known by its Go-syntax text. -/
structure Value where
  goSyntax : String
deriving DecidableEq, Repr

/-- The Go-syntax text of an `int`. -/
def Value.ofInt (n : Int) : Value := ⟨toString n⟩

/-- An operand of `Sprintf`. -/
inductive Arg where
  | str (s : String)
  | int (n : Int)
  | any (v : Value)
deriving DecidableEq, Repr

/-- The flags of a directive that the model knows: `-`, `#` and `0`. -/
structure Flags where
  minus : Bool := false
  sharp : Bool := false
  zero : Bool := false
deriving DecidableEq, Repr

/-- Where the scan of a format stands: in plain text, among the flags that follow a `%`, or in
the digits of a width. -/
inductive Mode where
  | text
  | flags (f : Flags)
  | width (f : Flags) (wid : Nat)
deriving DecidableEq, Repr

/-- Padding of `n` spaces (`writePadding` without the zero flag). -/
def writePadding (n : Nat) : String :=
  ⟨List.replicate n ' '⟩

/-- The `padString` of `fmt`: `s` padded to the width, if there is one, counted in runes; on the
right with the flag `-`, else on the left. A string longer than the width is written whole. -/
def padString (f : Flags) (wid : Option Nat) (s : String) : String :=
  match wid with
  | none => s
  | some w =>
    if f.minus then s ++ writePadding (w - s.length)
    else writePadding (w - s.length) ++ s

/-- What one directive prints for its operand: `%s` (with `-` and a width) for a string, a bare
`%d` for an integer, a bare `%#v` for a value of dynamic type; `none` for anything else. -/
def printArg (f : Flags) (wid : Option Nat) (verb : Char) (a : Arg) : Option String :=
  match a with
  | .str s =>
    if verb = 's' ∧ f.sharp = false ∧ (f.zero = false ∨ f.minus = true) then
      some (padString f wid s)
    else none
  | .int n =>
    if verb = 'd' ∧ f = {} ∧ wid = none then some (toString n) else none
  | .any v =>
    if verb = 'v' ∧ f = { sharp := true } ∧ wid = none then some v.goSyntax else none

/-- The value of a decimal digit. -/
def digitVal (c : Char) : Nat :=
  c.toNat - '0'.toNat

/-- The scan of `doPrintf` over the format, one character at a time. Text is copied; after `%`
come flags, then a width in decimal, then the verb, which takes the next operand (`%%` takes
none). A format that ends inside a directive, a missing operand and an operand left over make Go
print an error text in place of the value; the model answers `none` to them. Go also gives up on
a width whose numeral passes `1000000` while it is read; the model reads a numeral of any size, so
it speaks for the widths below that bound. -/
def doPrintf : Mode → List Char → List Arg → Option (List Char)
  | .text, [], [] => some []
  | .text, [], _ :: _ => none
  | .flags _, [], _ => none
  | .width _ _, [], _ => none
  | .text, c :: cs, args =>
    if c = '%' then doPrintf (.flags {}) cs args
    else (doPrintf .text cs args).map (fun out => c :: out)
  | .flags f, c :: cs, args =>
    if c = '-' then doPrintf (.flags { f with minus := true }) cs args
    else if c = '#' then doPrintf (.flags { f with sharp := true }) cs args
    else if c = '0' then doPrintf (.flags { f with zero := true }) cs args
    else if c.isDigit then doPrintf (.width f (digitVal c)) cs args
    else if c = '%' then (doPrintf .text cs args).map (fun out => '%' :: out)
    else
      match args with
      | [] => none
      | a :: rest =>
        match printArg f none c a with
        | none => none
        | some s => (doPrintf .text cs rest).map (fun out => s.data ++ out)
  | .width f w, c :: cs, args =>
    if c.isDigit then doPrintf (.width f (w * 10 + digitVal c)) cs args
    else if c = '%' then (doPrintf .text cs args).map (fun out => '%' :: out)
    else
      match args with
      | [] => none
      | a :: rest =>
        match printArg f (some w) c a with
        | none => none
        | some s => (doPrintf .text cs rest).map (fun out => s.data ++ out)

/-- Go's `fmt.Sprintf`, on the directives `%s`, `%-<width>s`, `%d`, `%#v` and `%%`. -/
def Sprintf (format : String) (args : List Arg) : Option String :=
  (doPrintf .text format.data args).map String.mk

end fmt

/-! ## Package `strconv`: quoting -/

namespace strconv

/-- Go's `strconv.IsPrint` on the runes up to U+00FF, which Go decides without its tables. -/
def isPrintLatin1 (c : Char) : Bool :=
  (0x20 ≤ c.toNat && c.toNat ≤ 0x7E) || (0xA1 ≤ c.toNat && c.toNat ≤ 0xFF && c.toNat != 0xAD)

/-- The `appendEscapedRune` of `strconv` for the quote `"`; `none` for a rune above U+00FF, whose
printability Go reads from tables that the model does not hold. -/
def appendEscapedRune (c : Char) : Option (List Char) :=
  if c = '"' ∨ c = '\\' then some ['\\', c]
  else if 0xFF < c.toNat then none
  else if isPrintLatin1 c then some [c]
  else if c.toNat = 7 then some ['\\', 'a']
  else if c.toNat = 8 then some ['\\', 'b']
  else if c.toNat = 12 then some ['\\', 'f']
  else if c.toNat = 10 then some ['\\', 'n']
  else if c.toNat = 13 then some ['\\', 'r']
  else if c.toNat = 9 then some ['\\', 't']
  else if c.toNat = 11 then some ['\\', 'v']
  else if c.toNat < 0x20 ∨ c.toNat = 0x7F then
    some ['\\', 'x', Nat.digitChar (c.toNat / 16), Nat.digitChar (c.toNat % 16)]
  else
    some ['\\', 'u', '0', '0', Nat.digitChar (c.toNat / 16), Nat.digitChar (c.toNat % 16)]

/-- Go's `strconv.Quote`: a double-quoted Go string literal. -/
def Quote (s : String) : Option String :=
  (s.data.mapM appendEscapedRune).map (fun parts => ⟨'"' :: (parts.flatten ++ ['"'])⟩)

end strconv

/-- The Go-syntax text of a `string`, which `%#v` prints quoted. -/
def fmt.Value.ofString (s : String) : Option fmt.Value :=
  (strconv.Quote s).map fmt.Value.mk

/-! ## Package `dabug` -/

namespace dabug

open runtime (Frame)

/-- Go's `len` of a string: its length in bytes. -/
def len (s : String) : Int :=
  s.utf8ByteSize

/-- The name under which `dabug.go` appears in the frames of the package's own functions. Where
the package is installed is not known to the model; no function below reads this name out of a
frame of the package. -/
def thisFile : String := "github.com/davidwashere/dabug/dabug.go"

/-- The frame of the function `fn` of this package, standing at line `ln` of `dabug.go`. -/
def frame (fn : String) (ln : Int) : Frame :=
  ⟨thisFile, "github.com/davidwashere/dabug." ++ fn, ln⟩

structure source where
  File : String
  Function : String
  Line : Int
deriving DecidableEq, Repr

/-- The method `String` of `source`. -/
def source.String (s : source) : Option String :=
  fmt.Sprintf "%s:%d" [.str s.File, .int s.Line]

/-- A line waiting to be flushed. The Go field `prefix` is spelled `prefix_` here. -/
structure line where
  msg : String
  src : source
  prefix_ : String
deriving DecidableEq, Repr

/-- The package-level variables, and the writes made so far (writer, text). -/
structure State where
  lines : List line
  defWriter : Nat
  defPrefix : String
  autoflush : Bool
  sectionBeg : String
  sectionEnd : String
  written : List (Nat × String)
deriving DecidableEq, Repr

/-- The variables as the package declares them, after `init`; `os.Stdout` is writer `0`. -/
def State.init : State :=
  { lines := [], defWriter := 0, defPrefix := "", autoflush := true,
    sectionBeg := "-----", sectionEnd := "=====", written := [] }

/-- One call of `fmt.Fprint(defWriter, s)`; what the writer answers is not looked at. -/
def Fprint (st : State) (s : String) : State :=
  { st with written := st.written ++ [(st.defWriter, s)] }

def Writer (writer : Nat) (st : State) : State :=
  { st with defWriter := writer }

def Prefix (p : String) (st : State) : State :=
  { st with defPrefix := p }

def clear (st : State) : State :=
  { st with lines := [] }

/-- The first loop of `Flush`: the greatest `len(l.prefix)` over the lines, from `-1`. -/
def maxPrefixLen (lines : List line) : Int :=
  lines.foldl (fun m l => max m (len l.prefix_)) (-1)

def lineStr (lFmt : String) (l : line) : Option String :=
  if len l.msg = 0 then
    fmt.Sprintf lFmt [.str l.prefix_]
  else
    fmt.Sprintf (lFmt ++ "- %s") [.str l.prefix_, .str l.msg]

def Flush (st : State) : Option State :=
  if st.lines.length = 0 then
    some st
  else do
    let sb ← fmt.Sprintf "%s%s\n" [.str st.defPrefix, .str st.sectionBeg]
    let lFmt ← fmt.Sprintf "%%-%ds" [.int (maxPrefixLen st.lines)]
    let sb ← st.lines.foldlM (fun sb l => do
      let s ← lineStr lFmt l
      pure (sb ++ (s ++ "\n"))) sb
    let fin ← fmt.Sprintf "%s%s\n" [.str st.defPrefix, .str st.sectionEnd]
    pure (clear (Fprint st (sb ++ fin)))

def AutoFlush (flush : Bool) (st : State) : Option State :=
  let st := { st with autoflush := flush }
  if st.lines.length > 0 then Flush st else some st

def flushLine (st : State) (l : line) : Option State := do
  let msg ← lineStr "%s" l
  let out ← fmt.Sprintf "%s\n" [.str msg]
  pure (Fprint st out)

def genPrefix (st : State) (l : line) : Option line := do
  let src ← l.src.String
  let p ← fmt.Sprintf "%s%s " [.str st.defPrefix, .str src]
  pure { l with prefix_ := p }

def appendLine (l : line) (st : State) : Option State := do
  let l ← genPrefix st l
  if st.autoflush then
    flushLine st l
  else
    pure { st with lines := st.lines ++ [l] }

/-- The function `getSource`; `stk` is the stack of its caller, innermost frame first. The frame
is taken by `runtime.Callers(4, ...)` at line 180 and the path by `runtime.Caller(3)` at line
186. -/
def getSource (stk : List Frame) : source :=
  let f := runtime.Callers 4 (frame "getSource" 180 :: stk)
  let fpath := runtime.Caller 3 (frame "getSource" 186 :: stk)
  let file := strings.TrimPrefix f.File (filepath.Dir fpath)
  let file := strings.TrimPrefix file "/"
  { File := file, Function := f.Function, Line := f.Line }

def appendEmpty (stk : List Frame) (st : State) : Option State :=
  appendLine { msg := "", src := getSource (frame "appendEmpty" 153 :: stk), prefix_ := "" } st

def appendMsg (stk : List Frame) (msg : String) (st : State) : Option State :=
  appendLine { msg := msg, src := getSource (frame "appendMsg" 160 :: stk), prefix_ := "" } st

/-- The function `Msg`, called with the stack `stk` of its caller: the head of `stk` is the frame
of the call site. -/
def Msg (stk : List Frame) (msg : String) (st : State) : Option State :=
  appendMsg (frame "Msg" 72 :: stk) msg st

def Here (stk : List Frame) (st : State) : Option State :=
  appendEmpty (frame "Here" 76 :: stk) st

def Objs (stk : List Frame) (things : List fmt.Value) (st : State) : Option State := do
  let msgs ← things.enum.foldlM (fun msgs it => do
    let msg ← fmt.Sprintf "[%d] %#v" [.int it.1, .any it.2]
    pure (msgs ++ [msg])) []
  appendMsg (frame "Objs" 87 :: stk) (strings.Join msgs ", ") st

/-- A trace call of a client: which function is called, from which stack, with which
arguments. -/
inductive Call where
  | Msg (stk : List Frame) (msg : String)
  | Here (stk : List Frame)
  | Objs (stk : List Frame) (things : List fmt.Value)
deriving DecidableEq, Repr

/-- The call carried out on a state. -/
def Call.run (c : Call) (st : State) : Option State :=
  match c with
  | .Msg stk msg => dabug.Msg stk msg st
  | .Here stk => dabug.Here stk st
  | .Objs stk things => dabug.Objs stk things st

/-- A sequence of trace calls carried out one after the other. -/
def runAll (calls : List Call) (st : State) : Option State :=
  calls.foldlM (fun st c => c.run st) st

/-- A call of one of the public functions of the package. -/
inductive Op where
  | Writer (writer : Nat)
  | Prefix (p : String)
  | AutoFlush (flush : Bool)
  | Msg (stk : List Frame) (msg : String)
  | Here (stk : List Frame)
  | Objs (stk : List Frame) (things : List fmt.Value)
  | Flush
deriving DecidableEq, Repr

/-- The public function carried out on a state. -/
def Op.run (op : Op) (st : State) : Option State :=
  match op with
  | .Writer writer => some (dabug.Writer writer st)
  | .Prefix p => some (dabug.Prefix p st)
  | .AutoFlush flush => dabug.AutoFlush flush st
  | .Msg stk msg => dabug.Msg stk msg st
  | .Here stk => dabug.Here stk st
  | .Objs stk things => dabug.Objs stk things st
  | .Flush => dabug.Flush st

/-- A sequence of calls of public functions carried out one after the other. -/
def runOps (ops : List Op) (st : State) : Option State :=
  ops.foldlM (fun st op => op.run st) st

end dabug

/-! ## Package `log` -/

namespace log

open runtime (Frame)

/-- The name under which `log/log.go` appears in the frames of the package's own functions. -/
def thisFile : String := "github.com/davidwashere/dabug/log/log.go"

/-- The frame of the function `fn` of this package, standing at line `ln` of `log.go`. -/
def frame (fn : String) (ln : Int) : Frame :=
  ⟨thisFile, "github.com/davidwashere/dabug/log." ++ fn, ln⟩

structure source where
  File : String
  Function : String
  Line : Int
deriving DecidableEq, Repr

/-- The method `String` of `source`. -/
def source.String (s : source) : Option String :=
  fmt.Sprintf "%s:%d" [.str s.File, .int s.Line]

/-- A line waiting to be flushed. The Go field `prefix` is spelled `prefix_` here. -/
structure line where
  msg : String
  src : source
  prefix_ : String
deriving DecidableEq, Repr

/-- The package-level variables, and the writes made so far (writer, text). `baseDir` is set by
`init` to `filepath.Dir(os.Args[0])` and never changed. -/
structure State where
  lines : List line
  defWriter : Nat
  defPrefix : String
  baseDir : String
  written : List (Nat × String)
deriving DecidableEq, Repr

/-- The variables after `init`, for a program started as `arg0`; `os.Stdout` is writer `0`. -/
def State.init (arg0 : String) : State :=
  { lines := [], defWriter := 0, defPrefix := "", baseDir := filepath.Dir arg0, written := [] }

/-- One call of `fmt.Fprintln(defWriter, s)`: the text and a newline. -/
def Fprintln (st : State) (s : String) : State :=
  { st with written := st.written ++ [(st.defWriter, s ++ "\n")] }

def Writer (writer : Nat) (st : State) : State :=
  { st with defWriter := writer }

def Prefix (p : String) (st : State) : State :=
  { st with defPrefix := p }

def clear (st : State) : State :=
  { st with lines := [] }

/-- The function `getSource`; `baseDir` is the package variable and `stk` the stack of the caller
of `getSource`, innermost frame first. The frame is taken by `runtime.Callers(3, ...)` at line
128. -/
def getSource (baseDir : String) (stk : List Frame) : source :=
  let f := runtime.Callers 3 (frame "getSource" 128 :: stk)
  let file := strings.TrimPrefix f.File baseDir
  let file := strings.TrimPrefix file "/"
  { File := file, Function := f.Function, Line := f.Line }

def genPrefix (st : State) (l : line) : Option line := do
  let src ← l.src.String
  let p ← fmt.Sprintf "%s%s " [.str st.defPrefix, .str src]
  pure { l with prefix_ := p }

def appendLine (stk : List Frame) (msg : String) (st : State) : Option State := do
  let l : line := { msg := msg, src := getSource st.baseDir (frame "appendLine" 84 :: stk),
                    prefix_ := "" }
  let l ← genPrefix st l
  pure { st with lines := st.lines ++ [l] }

/-- The function `Append`, called with the stack `stk` of its caller. -/
def Append (stk : List Frame) (msg : String) (st : State) : Option State :=
  appendLine (frame "Append" 64 :: stk) msg st

/-- The first loop of `Flush`: the greatest `len(l.prefix)` over the lines, from `-1`. -/
def maxPrefixLen (lines : List line) : Int :=
  lines.foldl (fun m l => max m (dabug.len l.prefix_)) (-1)

def Flush (st : State) : Option State := do
  let sb ← fmt.Sprintf "%s-----\n" [.str st.defPrefix]
  let lFmt ← fmt.Sprintf "%%-%ds- %%s\n" [.int (maxPrefixLen st.lines)]
  let sb ← st.lines.foldlM (fun sb l => do
    let s ← fmt.Sprintf lFmt [.str l.prefix_, .str l.msg]
    pure (sb ++ s)) sb
  let fin ← fmt.Sprintf "%s=====\n" [.str st.defPrefix]
  pure (clear (Fprintln st (sb ++ fin)))

end log

/-! ## Auxiliary definitions of the proofs -/

/-- One step of reading a width: the digit `c` joins the number `w`. -/
def fmt.widthStep (w : Nat) (c : Char) : Nat := w * 10 + fmt.digitVal c

/-- The text of one line of a block of width `n`, in closed form. -/
def dabug.blockLine (n : Nat) (l : dabug.line) : String :=
  l.prefix_ ++ fmt.writePadding (n - l.prefix_.length) ++ (if l.msg = "" then "" else "- " ++ l.msg)

/-- The text of the prefix that `genPrefix` gives to a line of source `src`, in closed form. -/
def dabug.prefixText (pre : String) (src : dabug.source) : String :=
  pre ++ (src.File ++ ":" ++ toString src.Line) ++ " "

/-- The message that a call hands to `appendLine`. -/
def dabug.Call.msg : dabug.Call → String
  | .Msg _ msg => msg
  | .Here _ => ""
  | .Objs _ things =>
    strings.Join (things.enum.map fun it =>
      "[" ++ toString ((it.1 : Nat) : Int) ++ "] " ++ it.2.goSyntax) ", "

/-- The source that a call captures. -/
def dabug.Call.src : dabug.Call → dabug.source
  | .Msg stk _ => dabug.getSource (dabug.frame "appendMsg" 160 :: dabug.frame "Msg" 72 :: stk)
  | .Here stk => dabug.getSource (dabug.frame "appendEmpty" 153 :: dabug.frame "Here" 76 :: stk)
  | .Objs stk _ => dabug.getSource (dabug.frame "appendMsg" 160 :: dabug.frame "Objs" 87 :: stk)

/-- The line that a call makes under the global prefix `pre`. -/
def dabug.Call.entry (pre : String) (c : dabug.Call) : dabug.line :=
  { msg := c.msg, src := c.src, prefix_ := dabug.prefixText pre c.src }

/-- The package as declared, with autoflush switched off: the state of the examples. -/
def dabug.buffering : dabug.State :=
  { dabug.State.init with autoflush := false }

/-- The state of the examples under the global prefix `p `. -/
def dabug.prefixed : dabug.State :=
  { dabug.buffering with defPrefix := "p " }

/-- Two trace calls of a client under `/home/u/proj`: the calls of the examples. -/
def dabug.twoCalls : List dabug.Call :=
  [.Msg [⟨"/home/u/proj/a.go", "main.main", 1⟩] "A",
   .Here [⟨"/home/u/proj/pkg/bb.go", "main.f", 22⟩]]

/-- A buffer of two lines whose prefixes are 6 and 8 bytes long. -/
def dabug.sixEight : dabug.State :=
  { dabug.buffering with
    lines := [{ msg := "A", src := ⟨"a.go", "main.main", 1⟩, prefix_ := "a.go:1" },
              { msg := "B", src := ⟨"bb.go", "main.f", 22⟩, prefix_ := "bb.go:22" }] }

/-- A buffer of two lines, the second one without a message. -/
def dabug.withMarker : dabug.State :=
  { dabug.buffering with
    lines := [{ msg := "A", src := ⟨"a.go", "main.main", 1⟩, prefix_ := "a.go:1 " },
              { msg := "", src := ⟨"bb.go", "main.f", 22⟩, prefix_ := "bb.go:22 " }] }

/-- A buffer of `dabug` holding one line. -/
def dabug.oneLine : dabug.State :=
  { dabug.buffering with
    lines := [{ msg := "A", src := ⟨"a.go", "main.main", 1⟩, prefix_ := "a.go:1 " }] }

/-- A buffer of `log` holding the same line. -/
def log.oneLine : log.State :=
  { log.State.init "/home/u/proj/main" with
    lines := [{ msg := "A", src := ⟨"a.go", "main.main", 1⟩, prefix_ := "a.go:1 " }] }

/-- A line whose prefix holds a character of two bytes: 8 bytes, 7 characters. -/
def dabug.accented : dabug.line :=
  { msg := "A", src := ⟨"é.go", "main.main", 1⟩, prefix_ := "é.go:1 " }

/-- A line whose prefix is made of characters of one byte. -/
def dabug.plain : dabug.line :=
  { msg := "A", src := ⟨"a.go", "main.main", 1⟩, prefix_ := "a.go:1 " }

/-- A run of the public functions: buffer two lines, switch autoflush on, trace, flush. -/
def dabug.sampleOps : List dabug.Op :=
  [.AutoFlush false, .Msg [⟨"/home/u/proj/a.go", "main.main", 1⟩] "A",
   .Here [⟨"/home/u/proj/pkg/bb.go", "main.f", 22⟩], .Prefix "p ", .AutoFlush true,
   .Objs [⟨"/home/u/proj/a.go", "main.main", 3⟩] [fmt.Value.ofInt 42], .Writer 1, .Flush]

/-- A proper element of a clean path: not empty, without separator, neither `.` nor `..`. -/
def filepath.isName (e : List Char) : Prop :=
  e ≠ [] ∧ '/' ∉ e ∧ e ≠ ['.'] ∧ e ≠ ['.', '.']

/-- The characters of the path `/c1/c2/.../ck` made of the elements `cs`; empty for no element. -/
def filepath.rootedPath (cs : List (List Char)) : List Char :=
  (cs.map fun c => '/' :: c).flatten

/-- The text that `Flush` writes for the lines `ls`, in closed form. -/
def dabug.blockText (st : dabug.State) (ls : List dabug.line) : String :=
  st.defPrefix ++ st.sectionBeg ++ "\n"
    ++ String.join (ls.map fun l => dabug.blockLine (dabug.maxPrefixLen ls).toNat l ++ "\n")
    ++ (st.defPrefix ++ st.sectionEnd ++ "\n")

/-! ## Lemmas on `fmt` -/

namespace fmt

theorem digitChar_spec (k : Nat) (hk : k < 10) :
    (Nat.digitChar k).isDigit = true ∧ digitVal (Nat.digitChar k) = k ∧
      (Nat.digitChar k = '0' → k = 0) := by
  interval_cases k <;> decide

theorem toDigitsCore_foldl (fuel : Nat) : ∀ (n : Nat) (ds : List Char), n < fuel →
    (Nat.toDigitsCore 10 fuel n ds).foldl widthStep 0 = ds.foldl widthStep n := by
  induction fuel with
  | zero => intro n ds h; omega
  | succ fuel ih =>
    intro n ds h
    have hd := (digitChar_spec (n % 10) (Nat.mod_lt _ (by decide))).2.1
    simp only [Nat.toDigitsCore]
    split
    · rename_i h0
      have : n % 10 = n := by omega
      rw [this] at hd
      simp only [List.foldl_cons, widthStep, hd, this, Nat.zero_mul, Nat.zero_add]
    · rename_i h0
      rw [ih (n / 10) _ (by omega)]
      simp only [List.foldl_cons, widthStep, hd]
      congr 1
      omega

theorem toDigitsCore_isDigit (fuel : Nat) : ∀ (n : Nat) (ds : List Char),
    (∀ c ∈ ds, c.isDigit = true) → ∀ c ∈ Nat.toDigitsCore 10 fuel n ds, c.isDigit = true := by
  induction fuel with
  | zero => intro n ds h; simpa [Nat.toDigitsCore] using h
  | succ fuel ih =>
    intro n ds h
    have hd := (digitChar_spec (n % 10) (Nat.mod_lt _ (by decide))).1
    have h2 : ∀ c ∈ Nat.digitChar (n % 10) :: ds, c.isDigit = true := by
      intro c hc
      rcases List.mem_cons.1 hc with rfl | hc
      · exact hd
      · exact h c hc
    simp only [Nat.toDigitsCore]
    split
    · exact h2
    · exact ih _ _ h2

theorem toDigitsCore_head (fuel : Nat) : ∀ (n : Nat) (ds : List Char), n < fuel → 0 < n →
    ∃ d tl, Nat.toDigitsCore 10 fuel n ds = d :: tl ∧ d ≠ '0' := by
  induction fuel with
  | zero => intro n ds h; omega
  | succ fuel ih =>
    intro n ds h hn
    simp only [Nat.toDigitsCore]
    split
    · rename_i h0
      refine ⟨_, _, rfl, fun hz => ?_⟩
      have := (digitChar_spec (n % 10) (Nat.mod_lt _ (by decide))).2.2 hz
      omega
    · rename_i h0
      exact ih _ _ (by omega) (by omega)

theorem doPrintf_width_digits (f : Flags) (rest : List Char) (args : List Arg) :
    ∀ (ds : List Char) (w : Nat), (∀ c ∈ ds, c.isDigit = true) →
      doPrintf (.width f w) (ds ++ rest) args
        = doPrintf (.width f (ds.foldl widthStep w)) rest args := by
  intro ds
  induction ds with
  | nil => intro w _; rfl
  | cons d ds ih =>
    intro w h
    have hd : d.isDigit = true := h d (List.mem_cons_self _ _)
    rw [List.foldl_cons, ← ih _ (fun c hc => h c (List.mem_cons_of_mem _ hc))]
    simp [doPrintf, hd, widthStep]

theorem toDigits_head (n : Nat) (hn : 0 < n) :
    ∃ d tl, Nat.toDigits 10 n = d :: tl ∧ d ≠ '0' ∧ d.isDigit = true ∧
      (∀ c ∈ tl, c.isDigit = true) ∧ tl.foldl widthStep (digitVal d) = n := by
  obtain ⟨d, tl, h, h0⟩ := toDigitsCore_head (n + 1) n [] (by omega) hn
  have hall := toDigitsCore_isDigit (n + 1) n [] (by simp)
  have hval := toDigitsCore_foldl (n + 1) n [] (by omega)
  rw [h] at hall hval
  refine ⟨d, tl, h, h0, hall d (List.mem_cons_self _ _),
    fun c hc => hall c (List.mem_cons_of_mem _ hc), ?_⟩
  simpa [widthStep] using hval

/-- The digits of a width after the flag `-`, then the verb `s`: the operand is written and padded
on the right to that width. -/
theorem doPrintf_minus_width (n : Nat) (p : String) (rest : List Char) (args : List Arg) :
    doPrintf (.flags { minus := true }) (Nat.toDigits 10 n ++ 's' :: rest) (.str p :: args)
      = (doPrintf .text rest args).map
          (fun out => (p ++ writePadding (n - p.length)).data ++ out) := by
  rcases Nat.eq_zero_or_pos n with rfl | hn
  · have h0 : Nat.toDigits 10 0 = ['0'] := by decide
    rw [h0]
    simp [doPrintf, printArg, padString, writePadding]
  · obtain ⟨d, tl, h, h0, hd, htl, hval⟩ := toDigits_head n hn
    have h1 : d ≠ '-' := by rintro rfl; exact absurd hd (by decide)
    have h2 : d ≠ '#' := by rintro rfl; exact absurd hd (by decide)
    rw [h, List.cons_append, doPrintf]
    simp only [h1, h2, h0, hd, if_false, if_true]
    rw [doPrintf_width_digits _ _ _ _ _ htl, hval]
    simp [doPrintf, printArg, padString]

theorem toString_natCast (n : Nat) : (toString ((n : Nat) : Int)).data = Nat.toDigits 10 n := rfl

theorem Sprintf_padded (n : Nat) (p : String) :
    Sprintf ("%-" ++ toString ((n : Nat) : Int) ++ "s") [.str p]
      = some (p ++ writePadding (n - p.length)) := by
  have h := doPrintf_minus_width n p [] []
  simp only [Sprintf, String.data_append, toString_natCast]
  simp only [List.append_assoc] at *
  simp [doPrintf, h, String.ext_iff]

theorem Sprintf_padded_msg (n : Nat) (p m : String) :
    Sprintf ("%-" ++ toString ((n : Nat) : Int) ++ "s" ++ "- %s") [.str p, .str m]
      = some (p ++ writePadding (n - p.length) ++ "- " ++ m) := by
  have h := doPrintf_minus_width n p "- %s".data [.str m]
  simp only [Sprintf, String.data_append, toString_natCast]
  simp only [List.append_assoc] at *
  simp [doPrintf, h, String.ext_iff, printArg, padString]

theorem Sprintf_lFmt (n : Int) :
    Sprintf "%%-%ds" [.int n] = some ("%-" ++ toString n ++ "s") := by
  simp [Sprintf, doPrintf, printArg, padString, String.ext_iff]

theorem Sprintf_str (a : String) : Sprintf "%s" [.str a] = some a := by
  simp [Sprintf, doPrintf, printArg, padString]

theorem Sprintf_str_msg (a b : String) :
    Sprintf ("%s" ++ "- %s") [.str a, .str b] = some (a ++ "- " ++ b) := by
  simp [Sprintf, doPrintf, printArg, padString, String.ext_iff]

theorem Sprintf_str_nl (a : String) : Sprintf "%s\n" [.str a] = some (a ++ "\n") := by
  simp [Sprintf, doPrintf, printArg, padString, String.ext_iff]

theorem Sprintf_str_str_nl (a b : String) :
    Sprintf "%s%s\n" [.str a, .str b] = some (a ++ b ++ "\n") := by
  simp [Sprintf, doPrintf, printArg, padString, String.ext_iff]

theorem Sprintf_str_str_sp (a b : String) :
    Sprintf "%s%s " [.str a, .str b] = some (a ++ b ++ " ") := by
  simp [Sprintf, doPrintf, printArg, padString, String.ext_iff]

theorem Sprintf_file_line (file : String) (n : Int) :
    Sprintf "%s:%d" [.str file, .int n] = some (file ++ ":" ++ toString n) := by
  simp [Sprintf, doPrintf, printArg, padString, String.ext_iff]

theorem Sprintf_index_value (i : Int) (v : Value) :
    Sprintf "[%d] %#v" [.int i, .any v] = some ("[" ++ toString i ++ "] " ++ v.goSyntax) := by
  simp [Sprintf, doPrintf, printArg, padString, String.ext_iff]

end fmt

/-! ## Lemmas on `dabug` -/

namespace dabug

open runtime (Frame)

theorem len_eq_zero_iff (s : String) : len s = 0 ↔ s = "" := by
  rcases s with ⟨cs⟩
  cases cs with
  | nil => simp [len]; rfl
  | cons c cs =>
    have hc := Char.utf8Size_pos c
    have : (⟨c :: cs⟩ : String) ≠ "" := by
      intro h
      have := congrArg String.data h
      simp at this
    simp only [this, iff_false]
    simp only [len, String.utf8ByteSize, String.utf8ByteSize.go]
    omega

theorem length_le_len (s : String) : (s.length : Int) ≤ len s := by
  rcases s with ⟨cs⟩
  simp only [len, String.length, Nat.cast_le]
  induction cs with
  | nil => simp
  | cons c cs ih =>
    have hc := Char.utf8Size_pos c
    simp only [String.utf8ByteSize, String.utf8ByteSize.go, List.length_cons] at *
    omega

theorem foldl_max_ge (ls : List line) : ∀ m : Int,
    m ≤ ls.foldl (fun m l => max m (len l.prefix_)) m := by
  induction ls with
  | nil => intro m; simp
  | cons l ls ih =>
    intro m
    simp only [List.foldl_cons]
    exact le_trans (le_max_left _ _) (ih _)

theorem foldl_max_mem (ls : List line) : ∀ (m : Int) (l : line), l ∈ ls →
    len l.prefix_ ≤ ls.foldl (fun m l => max m (len l.prefix_)) m := by
  induction ls with
  | nil => intro m l h; simp at h
  | cons a ls ih =>
    intro m l h
    simp only [List.foldl_cons]
    rcases List.mem_cons.1 h with rfl | h
    · exact le_trans (le_max_right _ _) (foldl_max_ge ls _)
    · exact ih _ l h

theorem len_le_maxPrefixLen (ls : List line) (l : line) (h : l ∈ ls) :
    len l.prefix_ ≤ maxPrefixLen ls :=
  foldl_max_mem ls _ l h

theorem maxPrefixLen_nonneg (ls : List line) (h : ls ≠ []) : 0 ≤ maxPrefixLen ls := by
  cases ls with
  | nil => exact absurd rfl h
  | cons l ls =>
    have h1 := len_le_maxPrefixLen (l :: ls) l (List.mem_cons_self _ _)
    have h2 : (0 : Int) ≤ len l.prefix_ := by simp [len]
    omega

/-- In a block, the prefix of a line is never longer than the width. -/
theorem length_le_width (ls : List line) (l : line) (h : l ∈ ls) :
    l.prefix_.length ≤ (maxPrefixLen ls).toNat := by
  have h1 := len_le_maxPrefixLen ls l h
  have h2 := length_le_len l.prefix_
  omega

theorem lineStr_block (n : Nat) (l : line) :
    lineStr ("%-" ++ toString ((n : Nat) : Int) ++ "s") l = some (blockLine n l) := by
  unfold lineStr blockLine
  by_cases h : l.msg = ""
  · simp [h, (len_eq_zero_iff _).2, fmt.Sprintf_padded]
  · have h2 : ¬ len l.msg = 0 := fun h3 => h ((len_eq_zero_iff _).1 h3)
    simp only [h2, h, if_false, fmt.Sprintf_padded_msg]
    simp [String.ext_iff]

theorem lineStr_single (l : line) :
    lineStr "%s" l = some (l.prefix_ ++ (if l.msg = "" then "" else "- " ++ l.msg)) := by
  unfold lineStr
  by_cases h : l.msg = ""
  · simp [h, (len_eq_zero_iff _).2, fmt.Sprintf_str]
  · have h2 : ¬ len l.msg = 0 := fun h3 => h ((len_eq_zero_iff _).1 h3)
    simp only [h2, h, if_false, fmt.Sprintf_str_msg]
    simp [String.ext_iff]

theorem foldlM_lines (lFmt : String) (r : line → String) (ls : List line) :
    ∀ sb : String, (∀ l ∈ ls, lineStr lFmt l = some (r l)) →
      ls.foldlM (fun sb l => (lineStr lFmt l).bind fun s => some (sb ++ (s ++ "\n"))) sb
        = some (sb ++ String.join (ls.map fun l => r l ++ "\n")) := by
  induction ls with
  | nil => intro sb _; simp [String.join_eq, String.ext_iff]
  | cons l ls ih =>
    intro sb h
    rw [List.foldlM_cons, h l (List.mem_cons_self _ _)]
    simp only [Option.some_bind, Option.pure_def, Option.bind_eq_bind]
    rw [ih _ (fun l hl => h l (List.mem_cons_of_mem _ hl))]
    simp [String.join_eq, String.ext_iff]

/-- What `Flush` does to a buffer that is not empty: one write of the block, and the buffer is
emptied. -/
theorem Flush_eq (st : State) (h : st.lines ≠ []) :
    Flush st = some { st with
      lines := []
      written := st.written ++ [(st.defWriter, blockText st st.lines)] } := by
  have hlen : ¬ st.lines.length = 0 := by
    intro h0; exact h (List.length_eq_zero.1 h0)
  have hM : maxPrefixLen st.lines = (((maxPrefixLen st.lines).toNat : Nat) : Int) :=
    (Int.toNat_of_nonneg (maxPrefixLen_nonneg _ h)).symm
  unfold Flush
  rw [if_neg hlen]
  simp only [fmt.Sprintf_str_str_nl, fmt.Sprintf_lFmt, Option.some_bind, Option.pure_def,
    Option.bind_eq_bind]
  rw [hM, foldlM_lines _ (blockLine (maxPrefixLen st.lines).toNat) _ _
    (fun l _ => lineStr_block _ l)]
  simp [clear, Fprint, blockText, ← hM]

theorem genPrefix_eq (st : State) (l : line) :
    genPrefix st l = some { l with prefix_ := prefixText st.defPrefix l.src } := by
  simp [genPrefix, source.String, fmt.Sprintf_file_line, fmt.Sprintf_str_str_sp, prefixText]

theorem appendLine_buffered (l : line) (st : State) (h : st.autoflush = false) :
    appendLine l st
      = some { st with lines := st.lines ++ [{ l with prefix_ := prefixText st.defPrefix l.src }] } := by
  simp [appendLine, genPrefix_eq, h]

theorem appendLine_auto (l : line) (st : State) (h : st.autoflush = true) :
    appendLine l st
      = some { st with written := st.written ++ [(st.defWriter,
          prefixText st.defPrefix l.src ++ (if l.msg = "" then "" else "- " ++ l.msg) ++ "\n")] } := by
  simp [appendLine, genPrefix_eq, h, flushLine, lineStr_single, fmt.Sprintf_str_nl, Fprint]

theorem foldlM_index_value (its : List (Nat × fmt.Value)) : ∀ msgs : List String,
    its.foldlM (fun msgs it =>
        (fmt.Sprintf "[%d] %#v" [.int it.1, .any it.2]).bind fun msg => some (msgs ++ [msg])) msgs
      = some (msgs ++ its.map fun it =>
          "[" ++ toString ((it.1 : Nat) : Int) ++ "] " ++ it.2.goSyntax) := by
  induction its with
  | nil => intro msgs; simp
  | cons it its ih =>
    intro msgs
    rw [List.foldlM_cons, fmt.Sprintf_index_value]
    simp only [Option.some_bind, Option.bind_eq_bind]
    rw [ih]
    simp

theorem Objs_eq (stk : List Frame) (things : List fmt.Value) (st : State) :
    Objs stk things st = appendMsg (frame "Objs" 87 :: stk) (Call.Objs stk things).msg st := by
  simp [Objs, foldlM_index_value, Call.msg]

/-- A call made while autoflush is off appends its line to the buffer. -/
theorem run_buffered (c : Call) (st : State) (h : st.autoflush = false) :
    c.run st = some { st with lines := st.lines ++ [c.entry st.defPrefix] } := by
  cases c with
  | Msg stk msg =>
    simp [Call.run, Msg, appendMsg, appendLine_buffered, h, Call.entry, Call.msg, Call.src]
  | Here stk =>
    simp [Call.run, Here, appendEmpty, appendLine_buffered, h, Call.entry, Call.msg, Call.src]
  | Objs stk things =>
    simp [Call.run, Objs_eq, appendMsg, appendLine_buffered, h, Call.entry, Call.src]

/-- A call made while autoflush is on writes its line and leaves the buffer alone. -/
theorem run_auto (c : Call) (st : State) (h : st.autoflush = true) :
    c.run st = some { st with written := st.written ++ [(st.defWriter,
      prefixText st.defPrefix c.src ++ (if c.msg = "" then "" else "- " ++ c.msg) ++ "\n")] } := by
  cases c with
  | Msg stk msg =>
    simp [Call.run, Msg, appendMsg, appendLine_auto, h, Call.msg, Call.src]
  | Here stk =>
    simp [Call.run, Here, appendEmpty, appendLine_auto, h, Call.msg, Call.src]
  | Objs stk things =>
    simp [Call.run, Objs_eq, appendMsg, appendLine_auto, h, Call.src]

theorem runAll_buffered (calls : List Call) : ∀ st : State, st.autoflush = false →
    runAll calls st
      = some { st with lines := st.lines ++ calls.map (Call.entry st.defPrefix) } := by
  induction calls with
  | nil => intro st _; simp [runAll]
  | cons c calls ih =>
    intro st h
    have h2 := ih { st with lines := st.lines ++ [c.entry st.defPrefix] } h
    simp only [runAll] at h2 ⊢
    rw [List.foldlM_cons, run_buffered c st h]
    simp only [Option.some_bind, Option.bind_eq_bind]
    rw [h2]
    simp

/-- The source captured by a call made from the call site `caller`: the frame taken is the one of
the call site, and its file is cut by the directory of that same file. -/
theorem getSource_caller (a b caller : Frame) (rest : List Frame) :
    getSource (a :: b :: caller :: rest)
      = { File := strings.TrimPrefix
            (strings.TrimPrefix caller.File (filepath.Dir caller.File)) "/"
          Function := caller.Function
          Line := caller.Line } := by
  rfl

end dabug

/-! ## The claims -/

namespace dabug

open runtime (Frame)

theorem forall₂_run_entry (st : State) (h : st.autoflush = false) (hempty : st.lines = [])
    (calls : List Call) :
    List.Forall₂ (fun c e => c.run st = some { st with lines := [e] }) calls
      (calls.map (Call.entry st.defPrefix)) := by
  induction calls with
  | nil => exact List.Forall₂.nil
  | cons c calls ih =>
    refine List.Forall₂.cons ?_ ih
    rw [run_buffered c st h, hempty]
    rfl

/-- C1: with autoflush off and an empty buffer, `N ≥ 1` trace calls followed by `Flush` write, in
one piece, the begin marker line, then one line per call in the order of the calls (entry `i` is
the entry that call `i` makes), each followed by a newline, then the end marker line; the buffer
is empty afterwards. -/
theorem flush_after_calls (st : State) (calls : List Call)
    (hauto : st.autoflush = false) (hempty : st.lines = []) (hN : calls ≠ []) :
    ∃ entries : List line,
      entries.length = calls.length ∧
      List.Forall₂ (fun c e => c.run st = some { st with lines := [e] }) calls entries ∧
      (runAll calls st).bind Flush = some { st with
        lines := []
        written := st.written ++ [(st.defWriter,
          st.defPrefix ++ st.sectionBeg ++ "\n"
            ++ String.join (entries.map fun e =>
                e.prefix_ ++ fmt.writePadding ((maxPrefixLen entries).toNat - e.prefix_.length)
                  ++ (if e.msg = "" then "" else "- " ++ e.msg) ++ "\n")
            ++ (st.defPrefix ++ st.sectionEnd ++ "\n"))] } := by
  refine ⟨calls.map (Call.entry st.defPrefix), by simp, forall₂_run_entry st hauto hempty calls, ?_⟩
  rw [runAll_buffered calls st hauto, hempty, Option.some_bind, Flush_eq _ (by simpa using hN)]
  simp [blockText, blockLine]

theorem flush_after_calls_witness :
    buffering.autoflush = false ∧ buffering.lines = [] ∧ twoCalls ≠ [] ∧
    ∃ entries : List line,
      entries.length = twoCalls.length ∧
      List.Forall₂ (fun c e => c.run buffering = some { buffering with lines := [e] })
        twoCalls entries ∧
      (runAll twoCalls buffering).bind Flush = some { buffering with
        lines := []
        written := buffering.written ++ [(buffering.defWriter,
          buffering.defPrefix ++ buffering.sectionBeg ++ "\n"
            ++ String.join (entries.map fun e =>
                e.prefix_ ++ fmt.writePadding ((maxPrefixLen entries).toNat - e.prefix_.length)
                  ++ (if e.msg = "" then "" else "- " ++ e.msg) ++ "\n")
            ++ (buffering.defPrefix ++ buffering.sectionEnd ++ "\n"))] } :=
  ⟨by decide, by decide, by decide,
    flush_after_calls buffering twoCalls (by decide) (by decide) (by decide)⟩

theorem foldl_max_attained (ls : List line) : ∀ m : Int,
    ls.foldl (fun m l => max m (len l.prefix_)) m = m ∨
      ∃ l ∈ ls, len l.prefix_ = ls.foldl (fun m l => max m (len l.prefix_)) m := by
  induction ls with
  | nil => intro m; exact Or.inl rfl
  | cons a ls ih =>
    intro m
    simp only [List.foldl_cons]
    rcases ih (max m (len a.prefix_)) with h | ⟨l, hl, h⟩
    · rw [h]
      rcases max_choice m (len a.prefix_) with h2 | h2
      · exact Or.inl h2
      · exact Or.inr ⟨a, List.mem_cons_self _ _, h2.symm⟩
    · exact Or.inr ⟨l, List.mem_cons_of_mem _ hl, h⟩

theorem maxPrefixLen_attained (ls : List line) (h : ls ≠ []) :
    ∃ l ∈ ls, len l.prefix_ = maxPrefixLen ls := by
  rcases foldl_max_attained ls (-1) with h1 | h1
  · have := maxPrefixLen_nonneg ls h
    unfold maxPrefixLen at this
    omega
  · exact h1

theorem length_writePadding (n : Nat) : (fmt.writePadding n).length = n := by
  simp [fmt.writePadding, String.length]

/-- C2: `Flush` of a buffer that is not empty writes every line as its prefix, whole, followed by
spaces up to the width `M`, the greatest `len` of a prefix in the batch, and then, when the
message is not empty, by `- ` and the message: prefix and padding together are `M` characters
long on every line, so the separator stands at column `M` on each of them. -/
theorem block_prefixes_aligned (st : State) (h : st.lines ≠ []) :
    Flush st = some { st with
      lines := []
      written := st.written ++ [(st.defWriter,
        st.defPrefix ++ st.sectionBeg ++ "\n"
          ++ String.join (st.lines.map fun l =>
              l.prefix_ ++ fmt.writePadding ((maxPrefixLen st.lines).toNat - l.prefix_.length)
                ++ (if l.msg = "" then "" else "- " ++ l.msg) ++ "\n")
          ++ (st.defPrefix ++ st.sectionEnd ++ "\n"))] } ∧
    (∀ l ∈ st.lines, len l.prefix_ ≤ maxPrefixLen st.lines) ∧
    (∃ l ∈ st.lines, len l.prefix_ = maxPrefixLen st.lines) ∧
    ∀ l ∈ st.lines,
      (l.prefix_ ++ fmt.writePadding ((maxPrefixLen st.lines).toNat - l.prefix_.length)).length
          = (maxPrefixLen st.lines).toNat ∧
      (l.prefix_ ++ fmt.writePadding ((maxPrefixLen st.lines).toNat - l.prefix_.length)
          ++ (if l.msg = "" then "" else "- " ++ l.msg)).data.drop (maxPrefixLen st.lines).toNat
        = (if l.msg = "" then "" else "- " ++ l.msg).data := by
  refine ⟨?_, fun l hl => len_le_maxPrefixLen _ l hl, maxPrefixLen_attained _ h, ?_⟩
  · rw [Flush_eq st h]
    simp [blockText, blockLine]
  · intro l hl
    have hw := length_le_width st.lines l hl
    have hlen : (l.prefix_ ++
        fmt.writePadding ((maxPrefixLen st.lines).toNat - l.prefix_.length)).length
          = (maxPrefixLen st.lines).toNat := by
      rw [String.length_append, length_writePadding]
      omega
    refine ⟨hlen, ?_⟩
    rw [String.data_append]
    exact List.drop_left' hlen

theorem block_prefixes_aligned_witness :
    sixEight.lines ≠ [] ∧ maxPrefixLen sixEight.lines = 8 ∧
    Flush sixEight = some { sixEight with
      lines := []
      written := [(0, "-----\na.go:1  - A\nbb.go:22- B\n=====\n")] } :=
  ⟨by decide, by decide, (block_prefixes_aligned sixEight (by decide)).1.trans (by decide)⟩

/-- C3: `Flush` of an empty buffer writes nothing and changes nothing: the state it returns is the
state it was given, the list of writes included. -/
theorem flush_empty_noop (st : State) (h : st.lines = []) : Flush st = some st := by
  simp [Flush, h]

theorem flush_empty_noop_witness :
    State.init.lines = [] ∧ Flush State.init = some State.init :=
  ⟨rfl, flush_empty_noop State.init rfl⟩

theorem join_append (xs ys : List String) :
    String.join (xs ++ ys) = String.join xs ++ String.join ys := by
  simp [String.join_eq, String.ext_iff]

theorem join_cons (x : String) (xs : List String) :
    String.join (x :: xs) = x ++ String.join xs := by
  simp [String.join_eq, String.ext_iff]

/-- C4: a call of `Here` makes an entry with an empty message, and such an entry is rendered as
its prefix alone, without `- `. With autoflush on, `Here` writes the prefix and a newline. With
autoflush off, `Here` appends an entry whose message is empty; and when a buffer holding an entry
`l` with an empty message is flushed, the line of `l` in the block is the prefix of `l`, padded
with spaces to the greatest `len` of a prefix in the batch, and a newline. -/
theorem here_renders_prefix_alone :
    (∀ (caller : Frame) (rest : List Frame) (st : State), st.autoflush = true →
      Here (caller :: rest) st = some { st with
        written := st.written ++ [(st.defWriter,
          st.defPrefix
            ++ strings.TrimPrefix (strings.TrimPrefix caller.File (filepath.Dir caller.File)) "/"
            ++ ":" ++ toString caller.Line ++ " " ++ "\n")] }) ∧
    (∀ (caller : Frame) (rest : List Frame) (st : State), st.autoflush = false →
      Here (caller :: rest) st = some { st with
        lines := st.lines ++ [{
          msg := ""
          src := {
            File := strings.TrimPrefix
              (strings.TrimPrefix caller.File (filepath.Dir caller.File)) "/"
            Function := caller.Function
            Line := caller.Line }
          prefix_ := st.defPrefix
            ++ strings.TrimPrefix (strings.TrimPrefix caller.File (filepath.Dir caller.File)) "/"
            ++ ":" ++ toString caller.Line ++ " " }] }) ∧
    (∀ (st : State) (before after : List line) (l : line),
      st.lines = before ++ l :: after → l.msg = "" →
      Flush st = some { st with
        lines := []
        written := st.written ++ [(st.defWriter,
          st.defPrefix ++ st.sectionBeg ++ "\n"
            ++ String.join (before.map fun e =>
                e.prefix_ ++ fmt.writePadding ((maxPrefixLen st.lines).toNat - e.prefix_.length)
                  ++ (if e.msg = "" then "" else "- " ++ e.msg) ++ "\n")
            ++ (l.prefix_ ++ fmt.writePadding ((maxPrefixLen st.lines).toNat - l.prefix_.length)
                  ++ "\n")
            ++ String.join (after.map fun e =>
                e.prefix_ ++ fmt.writePadding ((maxPrefixLen st.lines).toNat - e.prefix_.length)
                  ++ (if e.msg = "" then "" else "- " ++ e.msg) ++ "\n")
            ++ (st.defPrefix ++ st.sectionEnd ++ "\n"))] }) := by
  refine ⟨?_, ?_, ?_⟩
  · intro caller rest st h
    have := run_auto (.Here (caller :: rest)) st h
    simp only [Call.run] at this
    rw [this]
    simp [Call.src, Call.msg, getSource_caller, prefixText, String.ext_iff]
  · intro caller rest st h
    have := run_buffered (.Here (caller :: rest)) st h
    simp only [Call.run] at this
    rw [this]
    simp [Call.entry, Call.src, Call.msg, getSource_caller, prefixText, String.ext_iff]
  · intro st before after l hl hmsg
    have hne : st.lines ≠ [] := by rw [hl]; simp
    rw [Flush_eq st hne]
    simp only [blockText, blockLine]
    generalize (maxPrefixLen st.lines).toNat = n
    rw [hl, List.map_append, List.map_cons, join_append, join_cons]
    simp [hmsg, String.ext_iff]

theorem here_renders_prefix_alone_witness :
    (State.init.autoflush = true ∧
      Here [⟨"/home/u/proj/pkg/bb.go", "main.f", 22⟩] State.init
        = some { State.init with written := [(0, "bb.go:22 \n")] }) ∧
    (buffering.autoflush = false ∧
      Here [⟨"/home/u/proj/pkg/bb.go", "main.f", 22⟩] buffering
        = some { buffering with
            lines := [{ msg := "", src := ⟨"bb.go", "main.f", 22⟩, prefix_ := "bb.go:22 " }] }) ∧
    (withMarker.lines
        = [{ msg := "A", src := ⟨"a.go", "main.main", 1⟩, prefix_ := "a.go:1 " }]
          ++ { msg := "", src := ⟨"bb.go", "main.f", 22⟩, prefix_ := "bb.go:22 " } :: [] ∧
      Flush withMarker = some { withMarker with
        lines := []
        written := [(0, "-----\na.go:1   - A\nbb.go:22 \n=====\n")] }) :=
  ⟨⟨by decide, (here_renders_prefix_alone.1 _ _ _ (by decide)).trans (by decide)⟩,
   ⟨by decide, (here_renders_prefix_alone.2.1 _ _ _ (by decide)).trans (by decide)⟩,
   ⟨by decide, (here_renders_prefix_alone.2.2 withMarker
      [{ msg := "A", src := ⟨"a.go", "main.main", 1⟩, prefix_ := "a.go:1 " }] []
      { msg := "", src := ⟨"bb.go", "main.f", 22⟩, prefix_ := "bb.go:22 " }
      (by decide) (by decide)).trans (by decide)⟩⟩

/-- C5: on a buffer that is not empty, `AutoFlush(true)` writes the whole block of the buffered
entries (begin marker, every entry in order, end marker), leaves the buffer empty and autoflush
on. This holds whatever autoflush was before the call, so in particular when it was off. -/
theorem autoflush_on_flushes_backlog (st : State) (hne : st.lines ≠ []) :
    AutoFlush true st = some { st with
      autoflush := true
      lines := []
      written := st.written ++ [(st.defWriter,
        st.defPrefix ++ st.sectionBeg ++ "\n"
          ++ String.join (st.lines.map fun l =>
              l.prefix_ ++ fmt.writePadding ((maxPrefixLen st.lines).toNat - l.prefix_.length)
                ++ (if l.msg = "" then "" else "- " ++ l.msg) ++ "\n")
          ++ (st.defPrefix ++ st.sectionEnd ++ "\n"))] } := by
  have hpos : 0 < st.lines.length := List.length_pos.2 hne
  simp only [AutoFlush, gt_iff_lt, hpos, if_true]
  rw [Flush_eq _ (by simpa using hne)]
  simp [blockText, blockLine]

theorem autoflush_on_flushes_backlog_witness :
    withMarker.autoflush = false ∧ withMarker.lines ≠ [] ∧
    AutoFlush true withMarker = some { withMarker with
      autoflush := true
      lines := []
      written := [(0, "-----\na.go:1   - A\nbb.go:22 \n=====\n")] } :=
  ⟨by decide, by decide,
    (autoflush_on_flushes_backlog withMarker (by decide)).trans (by decide)⟩

theorem length_le_foldl_join (xs : List String) : ∀ acc : String,
    acc.length ≤ (xs.foldl (fun acc x => acc ++ ", " ++ x) acc).length := by
  induction xs with
  | nil => intro acc; simp
  | cons x xs ih =>
    intro acc
    simp only [List.foldl_cons]
    refine le_trans ?_ (ih _)
    simp only [String.length_append]
    omega

theorem Objs_msg_ne_empty (stk : List Frame) (things : List fmt.Value) (hne : things ≠ []) :
    (Call.Objs stk things).msg ≠ "" := by
  cases things with
  | nil => exact absurd rfl hne
  | cons t ts =>
    intro h0
    have hform : (Call.Objs stk (t :: ts)).msg
        = List.foldl (fun acc x => acc ++ ", " ++ x)
            ("[" ++ toString ((0 : Nat) : Int) ++ "] " ++ t.goSyntax)
            (List.map (fun it : Nat × fmt.Value =>
              "[" ++ toString ((it.1 : Nat) : Int) ++ "] " ++ it.2.goSyntax)
              (List.enumFrom 1 ts)) := rfl
    have h1 := congrArg String.length h0
    rw [hform] at h1
    have h3 := length_le_foldl_join (List.map (fun it : Nat × fmt.Value =>
        "[" ++ toString ((it.1 : Nat) : Int) ++ "] " ++ it.2.goSyntax) (List.enumFrom 1 ts))
      ("[" ++ toString ((0 : Nat) : Int) ++ "] " ++ t.goSyntax)
    rw [h1] at h3
    simp only [String.length_append] at h3
    have h4 : ("" : String).length = 0 := rfl
    have h5 : ("[" : String).length = 1 := rfl
    omega

/-- C6: `Objs` makes one entry, whose message is the texts `[i] ` followed by the Go-syntax form
of the `i`-th value, in the order of the values, joined by `, `: with autoflush off that entry is
appended to the buffer, with autoflush on (and at least one value, so that the message is not
empty) it is written at once after the prefix and `- `. For the values `42` and `"x"` the
message is `[0] 42, [1] "x"`. -/
theorem objs_message :
    (∀ (stk : List Frame) (things : List fmt.Value) (st : State), st.autoflush = false →
      ∃ (src : source) (pfx : String),
        Objs stk things st = some { st with
          lines := st.lines ++ [{
            msg := strings.Join
              (things.enum.map fun it => "[" ++ toString it.1 ++ "] " ++ it.2.goSyntax) ", "
            src := src
            prefix_ := pfx }] }) ∧
    (∀ (stk : List Frame) (things : List fmt.Value) (st : State), st.autoflush = true →
      things ≠ [] →
      ∃ pfx : String,
        Objs stk things st = some { st with
          written := st.written ++ [(st.defWriter,
            pfx ++ "- "
              ++ strings.Join
                  (things.enum.map fun it => "[" ++ toString it.1 ++ "] " ++ it.2.goSyntax) ", "
              ++ "\n")] }) ∧
    (fmt.Value.ofString "x" = some ⟨"\"x\""⟩ ∧
      ∀ (stk : List Frame) (st : State), st.autoflush = false →
        ∃ (src : source) (pfx : String),
          Objs stk [fmt.Value.ofInt 42, ⟨"\"x\""⟩] st = some { st with
            lines := st.lines ++ [{ msg := "[0] 42, [1] \"x\"", src := src, prefix_ := pfx }] }) := by
  refine ⟨?_, ?_, by decide, ?_⟩
  · intro stk things st h
    refine ⟨(Call.Objs stk things).src, prefixText st.defPrefix (Call.Objs stk things).src, ?_⟩
    have := run_buffered (.Objs stk things) st h
    simp only [Call.run] at this
    rw [this]
    rfl
  · intro stk things st h hne
    refine ⟨prefixText st.defPrefix (Call.Objs stk things).src, ?_⟩
    have := run_auto (.Objs stk things) st h
    simp only [Call.run] at this
    rw [this]
    have hmsg : (Call.Objs stk things).msg ≠ "" := Objs_msg_ne_empty stk things hne
    simp only [hmsg, if_false]
    simp [Call.msg, String.ext_iff]
    rfl
  · intro stk st h
    refine ⟨(Call.Objs stk [fmt.Value.ofInt 42, ⟨"\"x\""⟩]).src,
      prefixText st.defPrefix (Call.Objs stk [fmt.Value.ofInt 42, ⟨"\"x\""⟩]).src, ?_⟩
    have := run_buffered (.Objs stk [fmt.Value.ofInt 42, ⟨"\"x\""⟩]) st h
    simp only [Call.run] at this
    rw [this]
    rfl

theorem objs_message_witness :
    buffering.autoflush = false ∧
    ∃ (src : source) (pfx : String),
      Objs [⟨"/home/u/proj/a.go", "main.main", 3⟩] [fmt.Value.ofInt 42, ⟨"\"x\""⟩] buffering
        = some { buffering with
            lines := buffering.lines
              ++ [{ msg := "[0] 42, [1] \"x\"", src := src, prefix_ := pfx }] } :=
  ⟨by decide, objs_message.2.2.2 _ buffering (by decide)⟩

/-- C7: with autoflush on, `Msg(m)` for a message `m` that is not empty, called from the call
site `caller`, writes at once the single line `prefix ++ "- " ++ m ++ "\n"`, where the prefix is
the global prefix, the file and the line of the call site and a space, without padding and
without marker lines; the buffer, like every variable of the package, stays as it was. -/
theorem msg_autoflush_writes_line (caller : Frame) (rest : List Frame) (m : String) (st : State)
    (hauto : st.autoflush = true) (hm : m ≠ "") :
    Msg (caller :: rest) m st = some { st with
      written := st.written ++ [(st.defWriter,
        st.defPrefix
          ++ strings.TrimPrefix (strings.TrimPrefix caller.File (filepath.Dir caller.File)) "/"
          ++ ":" ++ toString caller.Line ++ " " ++ "- " ++ m ++ "\n")] } := by
  have := run_auto (.Msg (caller :: rest) m) st hauto
  simp only [Call.run] at this
  rw [this]
  simp [Call.src, Call.msg, hm, getSource_caller, prefixText, String.ext_iff]

theorem msg_autoflush_writes_line_witness :
    State.init.autoflush = true ∧ "A" ≠ "" ∧
    Msg [⟨"/home/u/proj/a.go", "main.main", 1⟩] "A" State.init
      = some { State.init with written := [(0, "a.go:1 - A\n")] } :=
  ⟨by decide, by decide,
    (msg_autoflush_writes_line _ _ _ State.init (by decide) (by decide)).trans (by decide)⟩

theorem hasPrefix_prefixText (pre : String) (src : source) :
    strings.HasPrefix (prefixText pre src) pre = true := by
  simp [strings.HasPrefix, prefixText, List.isPrefixOf_iff_prefix]

/-- C8: the prefix of an entry is fixed when the entry is appended. With autoflush off and an
empty buffer, after trace calls made under the global prefix `p` and then `Prefix(p')`, `Flush`
writes the entries with the prefixes stored under `p` (each stored prefix starts with `p`), while
the begin and the end marker lines start with `p'`. `Prefix` and `Writer` leave the buffered
lines, stored prefixes included, as they are. -/
theorem prefix_change_keeps_stored_prefixes (st : State) (calls : List Call) (p' : String)
    (hauto : st.autoflush = false) (hempty : st.lines = []) (hN : calls ≠ []) :
    ∃ entries : List line,
      List.Forall₂ (fun c e => c.run st = some { st with lines := [e] }) calls entries ∧
      (∀ e ∈ entries, strings.HasPrefix e.prefix_ st.defPrefix = true) ∧
      (∀ (s : State) (w : Nat), (Prefix p' s).lines = s.lines ∧ (Writer w s).lines = s.lines) ∧
      (runAll calls st).bind (fun s => Flush (Prefix p' s)) = some { st with
        defPrefix := p'
        lines := []
        written := st.written ++ [(st.defWriter,
          p' ++ st.sectionBeg ++ "\n"
            ++ String.join (entries.map fun e =>
                e.prefix_ ++ fmt.writePadding ((maxPrefixLen entries).toNat - e.prefix_.length)
                  ++ (if e.msg = "" then "" else "- " ++ e.msg) ++ "\n")
            ++ (p' ++ st.sectionEnd ++ "\n"))] } := by
  refine ⟨calls.map (Call.entry st.defPrefix), forall₂_run_entry st hauto hempty calls, ?_,
    fun s w => ⟨rfl, rfl⟩, ?_⟩
  · intro e he
    obtain ⟨c, _, rfl⟩ := List.mem_map.1 he
    exact hasPrefix_prefixText _ _
  · rw [runAll_buffered calls st hauto, hempty, Option.some_bind,
      Flush_eq _ (by simpa [Prefix] using hN)]
    simp [blockText, blockLine, Prefix]

theorem prefix_change_keeps_stored_prefixes_witness :
    prefixed.autoflush = false ∧ prefixed.lines = [] ∧ twoCalls ≠ [] ∧
    ∃ entries : List line,
      List.Forall₂ (fun c e => c.run prefixed = some { prefixed with lines := [e] })
        twoCalls entries ∧
      (∀ e ∈ entries, strings.HasPrefix e.prefix_ prefixed.defPrefix = true) ∧
      (∀ (s : State) (w : Nat), (Prefix "q " s).lines = s.lines ∧ (Writer w s).lines = s.lines) ∧
      (runAll twoCalls prefixed).bind (fun s => Flush (Prefix "q " s)) = some { prefixed with
        defPrefix := "q "
        lines := []
        written := prefixed.written ++ [(prefixed.defWriter,
          "q " ++ prefixed.sectionBeg ++ "\n"
            ++ String.join (entries.map fun e =>
                e.prefix_ ++ fmt.writePadding ((maxPrefixLen entries).toNat - e.prefix_.length)
                  ++ (if e.msg = "" then "" else "- " ++ e.msg) ++ "\n")
            ++ ("q " ++ prefixed.sectionEnd ++ "\n"))] } :=
  ⟨by decide, by decide, by decide,
    prefix_change_keeps_stored_prefixes prefixed twoCalls "q " (by decide) (by decide)
      (by decide)⟩

/-- C9: after `Flush` the buffer is empty, whatever it held; a second `Flush` right after the
first one writes nothing and changes nothing, so two flushes in a row do what one does, and an
entry written by one flush is in no later one. -/
theorem flush_twice (st : State) :
    ∃ st' : State, Flush st = some st' ∧ st'.lines = [] ∧ Flush st' = some st' ∧
      (Flush st).bind Flush = Flush st := by
  by_cases h : st.lines = []
  · have h1 := flush_empty_noop st h
    exact ⟨st, h1, h, h1, by rw [h1, Option.some_bind, h1]⟩
  · have h1 := Flush_eq st h
    have h2 := flush_empty_noop { st with
      lines := []
      written := st.written ++ [(st.defWriter, blockText st st.lines)] } rfl
    exact ⟨_, h1, rfl, h2, by rw [h1, Option.some_bind, h2]⟩

end dabug

namespace log

open runtime (Frame)

theorem trimPrefix_of_not_hasPrefix (s pre : String) (h : strings.HasPrefix s pre = false) :
    strings.TrimPrefix s pre = s := by
  simp [strings.TrimPrefix, h]

theorem slash_append_trimPrefix (s : String) (h : strings.HasPrefix s "/" = true) :
    "/" ++ strings.TrimPrefix s "/" = s := by
  rcases s with ⟨cs⟩
  cases cs with
  | nil => simp [strings.HasPrefix] at h
  | cons c cs =>
    have hc : c = '/' := by
      have h2 := h
      simp [strings.HasPrefix, List.isPrefixOf] at h2
      exact h2.symm
    subst hc
    simp [strings.TrimPrefix, h, String.ext_iff]
    rfl

/-- C10, as stated, fails: for the base directory `/home/u` and a frame of the file
`/usr/lib/x.go`, of which `/home/u` is not a prefix, `getSource` reports the file `usr/lib/x.go`,
not the absolute path. -/
theorem getSource_changes_foreign_path :
    strings.HasPrefix "/usr/lib/x.go" "/" = true ∧
    strings.HasPrefix "/usr/lib/x.go" "/home/u" = false ∧
    (getSource "/home/u" [frame "appendLine" 84, ⟨"/usr/lib/x.go", "main.f", 7⟩]).File
      = "usr/lib/x.go" ∧
    (getSource "/home/u" [frame "appendLine" 84, ⟨"/usr/lib/x.go", "main.f", 7⟩]).File
      ≠ "/usr/lib/x.go" := by
  decide

/-- C10, amended: when the directory cut off is not a prefix of the file path `f` of the frame
taken, the file reported is `f` with one leading `/` removed: an absolute path loses its leading
separator (the path reported, put after `/`, is `f`), and only a path that does not start with
`/` is reported as it is. This holds for `getSource` of `log`, which cuts off `baseDir`, and for
`getSource` of `dabug`, which cuts off the directory of the path found by `runtime.Caller`. -/
theorem getSource_foreign_path :
    (∀ (baseDir : String) (a fr : Frame) (rest : List Frame),
      strings.HasPrefix fr.File baseDir = false →
        (getSource baseDir (a :: fr :: rest)).File = strings.TrimPrefix fr.File "/" ∧
        (strings.HasPrefix fr.File "/" = true →
          "/" ++ (getSource baseDir (a :: fr :: rest)).File = fr.File) ∧
        (strings.HasPrefix fr.File "/" = false →
          (getSource baseDir (a :: fr :: rest)).File = fr.File)) ∧
    (∀ (a b fr : Frame) (rest : List Frame),
      strings.HasPrefix fr.File (filepath.Dir fr.File) = false →
        (dabug.getSource (a :: b :: fr :: rest)).File = strings.TrimPrefix fr.File "/" ∧
        (strings.HasPrefix fr.File "/" = true →
          "/" ++ (dabug.getSource (a :: b :: fr :: rest)).File = fr.File) ∧
        (strings.HasPrefix fr.File "/" = false →
          (dabug.getSource (a :: b :: fr :: rest)).File = fr.File)) := by
  constructor
  · intro baseDir a fr rest h
    have hfile : (getSource baseDir (a :: fr :: rest)).File
        = strings.TrimPrefix (strings.TrimPrefix fr.File baseDir) "/" := rfl
    rw [hfile, trimPrefix_of_not_hasPrefix _ _ h]
    exact ⟨rfl, slash_append_trimPrefix _, trimPrefix_of_not_hasPrefix _ _⟩
  · intro a b fr rest h
    rw [dabug.getSource_caller]
    simp only [trimPrefix_of_not_hasPrefix _ _ h]
    exact ⟨trivial, slash_append_trimPrefix _, trimPrefix_of_not_hasPrefix _ _⟩

theorem getSource_foreign_path_witness :
    strings.HasPrefix "/usr/lib/x.go" "/home/u" = false ∧
    (getSource "/home/u" [frame "appendLine" 84, ⟨"/usr/lib/x.go", "main.f", 7⟩]).File
      = strings.TrimPrefix "/usr/lib/x.go" "/" ∧
    strings.HasPrefix "/a/./../c/b.go" (filepath.Dir "/a/./../c/b.go") = false ∧
    (dabug.getSource [dabug.frame "appendMsg" 160, dabug.frame "Msg" 72,
        ⟨"/a/./../c/b.go", "main.f", 7⟩]).File
      = strings.TrimPrefix "/a/./../c/b.go" "/" :=
  ⟨by decide,
   (getSource_foreign_path.1 "/home/u" (frame "appendLine" 84) ⟨"/usr/lib/x.go", "main.f", 7⟩ []
      (by decide)).1,
   by decide,
   (getSource_foreign_path.2 (dabug.frame "appendMsg" 160) (dabug.frame "Msg" 72)
      ⟨"/a/./../c/b.go", "main.f", 7⟩ [] (by decide)).1⟩

end log

namespace log

open runtime (Frame)

theorem hasPrefix_append (d t : String) : strings.HasPrefix (d ++ t) d = true := by
  simp [strings.HasPrefix, List.isPrefixOf_iff_prefix]

theorem trimPrefix_append (d t : String) : strings.TrimPrefix (d ++ t) d = t := by
  unfold strings.TrimPrefix
  rw [if_pos (hasPrefix_append d t)]
  apply String.ext
  show (d.data ++ t.data).drop d.data.length = t.data
  exact List.drop_left _ _

/-- The part of C11 that holds: a frame file `d ++ "/" ++ r` is reported as `r`, which has no
leading separator when `r` has none. -/
theorem getSource_under_baseDir (d r : String) (a fr : Frame) (rest : List Frame)
    (hf : fr.File = d ++ "/" ++ r) :
    (getSource d (a :: fr :: rest)).File = r := by
  have hfile : (getSource d (a :: fr :: rest)).File
      = strings.TrimPrefix (strings.TrimPrefix fr.File d) "/" := rfl
  rw [hfile, hf, String.append_assoc, trimPrefix_append, trimPrefix_append]

theorem getSource_under_baseDir_example :
    (getSource "/home/u/proj" [frame "appendLine" 84, ⟨"/home/u/proj/pkg/x.go", "main.f", 7⟩]).File
      = "pkg/x.go" :=
  getSource_under_baseDir "/home/u/proj" "pkg/x.go" _ ⟨"/home/u/proj/pkg/x.go", "main.f", 7⟩ []
    (by decide)

/-- C11, at the input where the code departs from it: the base directory `/home/u/proj` is a
string prefix of the frame file `/home/u/project2/x.go` without being one of its directories, and
`getSource` cuts it off all the same: the file reported is `ect2/x.go`, which is not a path of
the file relative to any directory. -/
theorem getSource_cuts_inside_component :
    strings.HasPrefix "/home/u/project2/x.go" "/home/u/proj" = true ∧
    (getSource "/home/u/proj"
        [frame "appendLine" 84, ⟨"/home/u/project2/x.go", "main.f", 7⟩]).File
      = "ect2/x.go" := by
  decide

/-- C12, at the input where the code departs from it: `Flush` of `log` has no test for an empty
buffer, and on the empty buffer of a program just started it writes the two marker lines and the
newline of `Fprintln`, 13 bytes. -/
theorem flush_empty_writes_markers :
    (State.init "/home/u/proj/main").lines = [] ∧
    Flush (State.init "/home/u/proj/main")
      = some { State.init "/home/u/proj/main" with written := [(0, "-----\n=====\n\n")] } ∧
    ("-----\n=====\n\n" : String).utf8ByteSize = 13 := by
  decide

theorem Sprintf_str_begin (p : String) :
    fmt.Sprintf "%s-----\n" [.str p] = some (p ++ "-----\n") := by
  simp [fmt.Sprintf, fmt.doPrintf, fmt.printArg, fmt.padString, String.ext_iff]

theorem Sprintf_str_end (p : String) :
    fmt.Sprintf "%s=====\n" [.str p] = some (p ++ "=====\n") := by
  simp [fmt.Sprintf, fmt.doPrintf, fmt.printArg, fmt.padString, String.ext_iff]

theorem Sprintf_lFmt_msg (n : Int) :
    fmt.Sprintf "%%-%ds- %%s\n" [.int n] = some ("%-" ++ toString n ++ "s- %s\n") := by
  simp [fmt.Sprintf, fmt.doPrintf, fmt.printArg, fmt.padString, String.ext_iff]

theorem Sprintf_padded_msg_nl (n : Nat) (p m : String) :
    fmt.Sprintf ("%-" ++ toString ((n : Nat) : Int) ++ "s- %s\n") [.str p, .str m]
      = some (p ++ fmt.writePadding (n - p.length) ++ "- " ++ m ++ "\n") := by
  have h := fmt.doPrintf_minus_width n p "- %s\n".data [.str m]
  simp only [fmt.Sprintf, String.data_append, fmt.toString_natCast]
  simp only [List.append_assoc] at *
  simp [fmt.doPrintf, h, String.ext_iff, fmt.printArg, fmt.padString]

theorem foldlM_log_lines (lFmt : String) (r : line → String) (ls : List line) :
    ∀ sb : String, (∀ l ∈ ls, fmt.Sprintf lFmt [.str l.prefix_, .str l.msg] = some (r l)) →
      ls.foldlM (fun sb l =>
          (fmt.Sprintf lFmt [.str l.prefix_, .str l.msg]).bind fun s => some (sb ++ s)) sb
        = some (sb ++ String.join (ls.map r)) := by
  induction ls with
  | nil => intro sb _; simp [String.join_eq, String.ext_iff]
  | cons l ls ih =>
    intro sb h
    rw [List.foldlM_cons, h l (List.mem_cons_self _ _)]
    simp only [Option.some_bind, Option.bind_eq_bind]
    rw [ih _ (fun l hl => h l (List.mem_cons_of_mem _ hl))]
    simp [String.join_eq, String.ext_iff]

theorem foldl_max_of_forall₂ (xs : List line) (ys : List dabug.line)
    (h : List.Forall₂ (fun l e => l.prefix_ = e.prefix_ ∧ l.msg = e.msg) xs ys) : ∀ m : Int,
    xs.foldl (fun m l => max m (dabug.len l.prefix_)) m
      = ys.foldl (fun m e => max m (dabug.len e.prefix_)) m := by
  induction h with
  | nil => intro m; rfl
  | cons hxy _ ih =>
    intro m
    simp only [List.foldl_cons, hxy.1]
    exact ih _

theorem maxPrefixLen_of_forall₂ (xs : List line) (ys : List dabug.line)
    (h : List.Forall₂ (fun l e => l.prefix_ = e.prefix_ ∧ l.msg = e.msg) xs ys) :
    maxPrefixLen xs = dabug.maxPrefixLen ys :=
  foldl_max_of_forall₂ xs ys h _

theorem forall₂_map_self (xs : List line) :
    List.Forall₂ (fun (l : line) (e : dabug.line) => l.prefix_ = e.prefix_ ∧ l.msg = e.msg) xs
      (xs.map fun l => ({ msg := l.msg, src := ⟨l.src.File, l.src.Function, l.src.Line⟩,
                          prefix_ := l.prefix_ } : dabug.line)) := by
  induction xs with
  | nil => exact List.Forall₂.nil
  | cons x xs ih => exact List.Forall₂.cons ⟨rfl, rfl⟩ ih

theorem log_maxPrefixLen_nonneg (xs : List line) (h : xs ≠ []) : 0 ≤ maxPrefixLen xs := by
  rw [maxPrefixLen_of_forall₂ xs _ (forall₂_map_self xs)]
  exact dabug.maxPrefixLen_nonneg _ (by simpa using h)

/-- What `Flush` of `log` does to a buffer that is not empty. -/
theorem log_Flush_eq (st : State) (h : st.lines ≠ []) :
    Flush st = some { st with
      lines := []
      written := st.written ++ [(st.defWriter,
        st.defPrefix ++ "-----\n"
          ++ String.join (st.lines.map fun l =>
              l.prefix_ ++ fmt.writePadding ((maxPrefixLen st.lines).toNat - l.prefix_.length)
                ++ "- " ++ l.msg ++ "\n")
          ++ (st.defPrefix ++ "=====\n") ++ "\n")] } := by
  have hM : maxPrefixLen st.lines = (((maxPrefixLen st.lines).toNat : Nat) : Int) :=
    (Int.toNat_of_nonneg (log_maxPrefixLen_nonneg _ h)).symm
  unfold Flush
  simp only [Sprintf_str_begin, Sprintf_str_end, Sprintf_lFmt_msg, Option.some_bind, Option.pure_def,
    Option.bind_eq_bind]
  rw [hM, foldlM_log_lines _ (fun l =>
      l.prefix_ ++ fmt.writePadding ((maxPrefixLen st.lines).toNat - l.prefix_.length)
        ++ "- " ++ l.msg ++ "\n") _ _ (fun l _ => Sprintf_padded_msg_nl _ _ _)]
  simp [clear, Fprintln, ← hM]

/-- What `Flush` of `log` does to an empty buffer. -/
theorem Flush_empty (st : State) (h : st.lines = []) :
    Flush st = some { st with
      written := st.written ++ [(st.defWriter,
        st.defPrefix ++ "-----\n" ++ (st.defPrefix ++ "=====\n") ++ "\n")] } := by
  unfold Flush
  simp only [Sprintf_str_begin, Sprintf_str_end, Sprintf_lFmt_msg, Option.some_bind, Option.pure_def,
    Option.bind_eq_bind, h, List.foldlM_nil]
  simp [clear, Fprintln, h]

theorem map_lines_of_forall₂ (n : Nat) (xs : List line) (ys : List dabug.line)
    (h : List.Forall₂ (fun l e => l.prefix_ = e.prefix_ ∧ l.msg = e.msg) xs ys) :
    (∀ l ∈ xs, l.msg ≠ "") →
    xs.map (fun l => l.prefix_ ++ fmt.writePadding (n - l.prefix_.length) ++ "- " ++ l.msg ++ "\n")
      = ys.map (fun e => dabug.blockLine n e ++ "\n") := by
  induction h with
  | nil => intro _; rfl
  | @cons x y xs ys hxy _ ih =>
    intro hmsg
    have hx : x.msg ≠ "" := hmsg x (List.mem_cons_self _ _)
    have hy : y.msg ≠ "" := hxy.2 ▸ hx
    rw [List.map_cons, List.map_cons, ih (fun l hl => hmsg l (List.mem_cons_of_mem _ hl))]
    congr 1
    simp [dabug.blockLine, hy, hxy.1, hxy.2, String.ext_iff]

/-- C13, as stated, fails: for one and the same line, prefix `a.go:1 ` and message `A`, under the
same global prefix and the markers `-----` and `=====`, `Flush` of `log` writes a text that ends
with one newline more than the text that `Flush` of `dabug` writes. -/
theorem flush_texts_differ :
    (oneLine.lines.map fun l => (l.prefix_, l.msg))
      = (dabug.oneLine.lines.map fun e => (e.prefix_, e.msg)) ∧
    oneLine.defPrefix = dabug.oneLine.defPrefix ∧
    dabug.oneLine.sectionBeg = "-----" ∧ dabug.oneLine.sectionEnd = "=====" ∧
    dabug.oneLine.autoflush = false ∧
    Flush oneLine
      = some { oneLine with lines := [], written := [(0, "-----\na.go:1 - A\n=====\n\n")] } ∧
    dabug.Flush dabug.oneLine
      = some { dabug.oneLine with lines := [], written := [(0, "-----\na.go:1 - A\n=====\n")] } ∧
    ("-----\na.go:1 - A\n=====\n\n" : String) ≠ "-----\na.go:1 - A\n=====\n" := by
  decide

/-- C13, amended: for a batch that is not empty and in which every message is not empty, with the
same prefixes and messages line by line, the same global prefix and the markers `-----` and
`=====`, the text written by `Flush` of `log` is the text written by `Flush` of `dabug` followed
by one newline, and both empty their buffer. -/
theorem log_flush_is_dabug_flush_and_newline (ls : State) (ds : dabug.State)
    (hlines : List.Forall₂ (fun l e => l.prefix_ = e.prefix_ ∧ l.msg = e.msg) ls.lines ds.lines)
    (hpre : ls.defPrefix = ds.defPrefix)
    (hbeg : ds.sectionBeg = "-----") (hend : ds.sectionEnd = "=====")
    (hne : ls.lines ≠ []) (hmsg : ∀ l ∈ ls.lines, l.msg ≠ "") :
    ∃ text : String,
      dabug.Flush ds = some { ds with
        lines := []
        written := ds.written ++ [(ds.defWriter, text)] } ∧
      Flush ls = some { ls with
        lines := []
        written := ls.written ++ [(ls.defWriter, text ++ "\n")] } := by
  have hne2 : ds.lines ≠ [] := by
    intro h0
    rw [h0] at hlines
    exact hne (List.forall₂_nil_right_iff.1 hlines)
  refine ⟨dabug.blockText ds ds.lines, dabug.Flush_eq ds hne2, ?_⟩
  rw [log_Flush_eq ls hne, maxPrefixLen_of_forall₂ _ _ hlines,
    map_lines_of_forall₂ _ _ _ hlines hmsg]
  have h1 : ∀ p : String, p ++ "-----" ++ "\n" = p ++ "-----\n" := fun p => by
    rw [String.append_assoc]; rfl
  have h2 : ∀ p : String, p ++ "=====" ++ "\n" = p ++ "=====\n" := fun p => by
    rw [String.append_assoc]; rfl
  simp [dabug.blockText, hpre, hbeg, hend, h1, h2]

theorem log_flush_is_dabug_flush_and_newline_witness :
    oneLine.lines ≠ [] ∧ (∀ l ∈ oneLine.lines, l.msg ≠ "") ∧
    ∃ text : String,
      dabug.Flush dabug.oneLine = some { dabug.oneLine with
        lines := []
        written := dabug.oneLine.written ++ [(dabug.oneLine.defWriter, text)] } ∧
      Flush oneLine = some { oneLine with
        lines := []
        written := oneLine.written ++ [(oneLine.defWriter, text ++ "\n")] } :=
  ⟨by decide, by decide,
    log_flush_is_dabug_flush_and_newline oneLine dabug.oneLine
      (List.Forall₂.cons ⟨rfl, rfl⟩ List.Forall₂.nil) rfl rfl rfl (by decide) (by decide)⟩

end log

namespace dabug

open runtime (Frame)

/-- `Flush` always returns, and the buffer is empty afterwards. -/
theorem Flush_total (st : State) : ∃ st' : State, Flush st = some st' ∧ st'.lines = [] ∧
    st'.autoflush = st.autoflush := by
  by_cases h : st.lines = []
  · exact ⟨st, flush_empty_noop st h, h, rfl⟩
  · exact ⟨_, Flush_eq st h, rfl, rfl⟩

theorem AutoFlush_total (flush : Bool) (st : State) :
    ∃ st' : State, AutoFlush flush st = some st' ∧ st'.lines = [] ∧ st'.autoflush = flush := by
  by_cases h : st.lines = []
  · refine ⟨{ st with autoflush := flush }, ?_, h, rfl⟩
    simp [AutoFlush, h]
  · have hpos : 0 < st.lines.length := List.length_pos.2 h
    obtain ⟨st', h1, h2, h3⟩ := Flush_total { st with autoflush := flush }
    refine ⟨st', ?_, h2, h3⟩
    simp only [AutoFlush, gt_iff_lt, hpos, if_true]
    exact h1

/-- A trace call always returns; it leaves the mode as it is, and in autoflush mode it leaves the
buffer as it is. -/
theorem Call_run_total (c : Call) (st : State) :
    ∃ st' : State, c.run st = some st' ∧ st'.autoflush = st.autoflush ∧
      (st.autoflush = true → st'.lines = st.lines) := by
  cases h : st.autoflush with
  | true => exact ⟨_, run_auto c st h, h, fun _ => rfl⟩
  | false => exact ⟨_, run_buffered c st h, h, fun h2 => absurd h2 (by simp)⟩

/-- Every public function keeps "autoflush on implies buffer empty", and always returns. -/
theorem Op_run_keeps_invariant (op : Op) (st : State)
    (hinv : st.autoflush = true → st.lines = []) :
    ∃ st' : State, op.run st = some st' ∧ (st'.autoflush = true → st'.lines = []) := by
  cases op with
  | Writer w => exact ⟨_, rfl, hinv⟩
  | Prefix p => exact ⟨_, rfl, hinv⟩
  | AutoFlush flush =>
    obtain ⟨st', h1, h2, _⟩ := AutoFlush_total flush st
    exact ⟨st', h1, fun _ => h2⟩
  | Msg stk msg =>
    obtain ⟨st', h1, h2, h3⟩ := Call_run_total (.Msg stk msg) st
    exact ⟨st', h1, fun h => by rw [h3 (h2 ▸ h)]; exact hinv (h2 ▸ h)⟩
  | Here stk =>
    obtain ⟨st', h1, h2, h3⟩ := Call_run_total (.Here stk) st
    exact ⟨st', h1, fun h => by rw [h3 (h2 ▸ h)]; exact hinv (h2 ▸ h)⟩
  | Objs stk things =>
    obtain ⟨st', h1, h2, h3⟩ := Call_run_total (.Objs stk things) st
    exact ⟨st', h1, fun h => by rw [h3 (h2 ▸ h)]; exact hinv (h2 ▸ h)⟩
  | Flush =>
    obtain ⟨st', h1, h2, _⟩ := Flush_total st
    exact ⟨st', h1, fun _ => h2⟩

theorem runOps_keeps_invariant (ops : List Op) : ∀ st : State,
    (st.autoflush = true → st.lines = []) →
    ∃ st' : State, runOps ops st = some st' ∧ (st'.autoflush = true → st'.lines = []) := by
  induction ops with
  | nil => intro st h; exact ⟨st, rfl, h⟩
  | cons op ops ih =>
    intro st h
    obtain ⟨st1, h1, hinv1⟩ := Op_run_keeps_invariant op st h
    obtain ⟨st2, h2, hinv2⟩ := ih st1 hinv1
    refine ⟨st2, ?_, hinv2⟩
    simp only [runOps] at h2 ⊢
    rw [List.foldlM_cons, h1]
    exact h2

/-- C15: "autoflush is on implies the buffer is empty" holds in the initial state and is kept by
every public function (`Writer`, `Prefix`, `AutoFlush`, `Msg`, `Here`, `Objs`, `Flush`), each of
which always returns. So every sequence of public calls from the initial state ends in a state
where it holds, and where, if autoflush is on, `Flush` writes nothing and changes nothing. -/
theorem autoflush_on_implies_buffer_empty :
    (State.init.autoflush = true ∧ State.init.lines = []) ∧
    (∀ (op : Op) (st : State), (st.autoflush = true → st.lines = []) →
      ∃ st' : State, op.run st = some st' ∧ (st'.autoflush = true → st'.lines = [])) ∧
    (∀ ops : List Op, ∃ st' : State, runOps ops State.init = some st' ∧
      (st'.autoflush = true → st'.lines = []) ∧
      (st'.autoflush = true → Flush st' = some st')) := by
  refine ⟨⟨rfl, rfl⟩, Op_run_keeps_invariant, fun ops => ?_⟩
  obtain ⟨st', h1, h2⟩ := runOps_keeps_invariant ops State.init (fun _ => rfl)
  exact ⟨st', h1, h2, fun h => flush_empty_noop st' (h2 h)⟩

theorem autoflush_on_implies_buffer_empty_witness :
    ∃ st' : State, runOps sampleOps State.init = some st' ∧
      (st'.autoflush = true → st'.lines = []) ∧
      (st'.autoflush = true → Flush st' = some st') :=
  autoflush_on_implies_buffer_empty.2.2 sampleOps

theorem toNat_len (p : String) : (len p).toNat = p.utf8ByteSize := by
  simp [len]

/-- C16, as stated, fails: for a line whose prefix `é.go:1 ` is 8 bytes and 7 characters long,
the block format built from `len` of the prefix is `%-8s`, under which the line carries one space
more after the prefix than under `%s`; the block of that one line differs in the same way from
what autoflush writes. -/
theorem single_entry_block_line_differs :
    len accented.prefix_ = 8 ∧ accented.prefix_.length = 7 ∧
    fmt.Sprintf "%%-%ds" [.int (len accented.prefix_)] = some "%-8s" ∧
    lineStr "%-8s" accented = some "é.go:1  - A" ∧
    lineStr "%s" accented = some "é.go:1 - A" ∧
    lineStr "%-8s" accented ≠ lineStr "%s" accented ∧
    Flush { buffering with lines := [accented] }
      = some { buffering with written := [(0, "-----\né.go:1  - A\n=====\n")] } ∧
    flushLine buffering accented
      = some { buffering with written := [(0, "é.go:1 - A\n")] } := by
  decide

/-- C16, amended: for a line `l`, the block format built from the width `len(l.prefix)` writes
the prefix, then as many spaces as the prefix has bytes beyond its characters, then the same tail
as the format `%s`. So the two formats write the same line when every character of the prefix
takes one byte, and then `Flush` of the batch made of `l` alone writes the begin marker line,
the line that single-line rendering writes for `l`, and the end marker line. -/
theorem single_entry_block_line (l : line) :
    ∃ lFmt : String,
      fmt.Sprintf "%%-%ds" [.int (len l.prefix_)] = some lFmt ∧
      maxPrefixLen [l] = len l.prefix_ ∧
      lineStr lFmt l = some (l.prefix_
        ++ fmt.writePadding (l.prefix_.utf8ByteSize - l.prefix_.length)
        ++ (if l.msg = "" then "" else "- " ++ l.msg)) ∧
      lineStr "%s" l = some (l.prefix_ ++ (if l.msg = "" then "" else "- " ++ l.msg)) ∧
      (l.prefix_.utf8ByteSize = l.prefix_.length →
        lineStr lFmt l = lineStr "%s" l ∧
        ∀ st : State, st.lines = [l] →
          Flush st = some { st with
            lines := []
            written := st.written ++ [(st.defWriter,
              st.defPrefix ++ st.sectionBeg ++ "\n"
                ++ (l.prefix_ ++ (if l.msg = "" then "" else "- " ++ l.msg) ++ "\n")
                ++ (st.defPrefix ++ st.sectionEnd ++ "\n"))] }) := by
  have hM : maxPrefixLen [l] = len l.prefix_ := by
    have h0 : (0 : Int) ≤ len l.prefix_ := by simp [len]
    simp only [maxPrefixLen, List.foldl_cons, List.foldl_nil]
    omega
  have hcast : len l.prefix_ = ((l.prefix_.utf8ByteSize : Nat) : Int) := rfl
  have hblock := lineStr_block l.prefix_.utf8ByteSize l
  refine ⟨"%-" ++ toString (len l.prefix_) ++ "s", fmt.Sprintf_lFmt _, hM, ?_, lineStr_single l,
    ?_⟩
  · rw [hcast, hblock]
    rfl
  · intro hascii
    have hpad : fmt.writePadding (l.prefix_.utf8ByteSize - l.prefix_.length) = "" := by
      rw [hascii, Nat.sub_self]; rfl
    refine ⟨?_, ?_⟩
    · rw [hcast, hblock, lineStr_single, blockLine, hpad]
      simp [String.ext_iff]
    · intro st hst
      rw [Flush_eq st (by rw [hst]; simp)]
      simp only [blockText, hst, hM, toNat_len, List.map_cons, List.map_nil, blockLine, hpad]
      simp [String.join_eq, String.ext_iff]

theorem single_entry_block_line_witness :
    plain.prefix_.utf8ByteSize = plain.prefix_.length ∧
    ∃ lFmt : String,
      fmt.Sprintf "%%-%ds" [.int (len plain.prefix_)] = some lFmt ∧
      lineStr lFmt plain = lineStr "%s" plain ∧
      Flush { buffering with lines := [plain] }
        = some { buffering with written := [(0, "-----\na.go:1 - A\n=====\n")] } := by
  obtain ⟨lFmt, h1, _, _, _, h5⟩ := single_entry_block_line plain
  obtain ⟨h6, h7⟩ := h5 (by decide)
  exact ⟨by decide, lFmt, h1, h6, (h7 { buffering with lines := [plain] } rfl).trans (by decide)⟩

/-- C18: on a buffer that is not empty, `AutoFlush(false)` writes the whole block of the buffered
entries and empties the buffer, as `Flush` does, and leaves autoflush off; this holds whatever
autoflush was before the call, so also when it was off already. -/
theorem autoflush_off_flushes_backlog (st : State) (hne : st.lines ≠ []) :
    AutoFlush false st = some { st with
      autoflush := false
      lines := []
      written := st.written ++ [(st.defWriter,
        st.defPrefix ++ st.sectionBeg ++ "\n"
          ++ String.join (st.lines.map fun l =>
              l.prefix_ ++ fmt.writePadding ((maxPrefixLen st.lines).toNat - l.prefix_.length)
                ++ (if l.msg = "" then "" else "- " ++ l.msg) ++ "\n")
          ++ (st.defPrefix ++ st.sectionEnd ++ "\n"))] } ∧
    AutoFlush false st = (Flush st).map (fun s => { s with autoflush := false }) := by
  have hpos : 0 < st.lines.length := List.length_pos.2 hne
  simp only [AutoFlush, gt_iff_lt, hpos, if_true]
  rw [Flush_eq _ (by simpa using hne), Flush_eq st hne]
  simp [blockText, blockLine]

theorem autoflush_off_flushes_backlog_witness :
    withMarker.lines ≠ [] ∧ withMarker.autoflush = false ∧
    AutoFlush false withMarker = some { withMarker with
      lines := []
      written := [(0, "-----\na.go:1   - A\nbb.go:22 \n=====\n")] } ∧
    AutoFlush false withMarker = (Flush withMarker).map (fun s => { s with autoflush := false }) :=
  ⟨by decide, by decide,
    (autoflush_off_flushes_backlog withMarker (by decide)).1.trans (by decide),
    (autoflush_off_flushes_backlog withMarker (by decide)).2⟩

end dabug

/-! ## Lemmas on `path/filepath` -/

namespace filepath

theorem elements_slash (xs : List Char) : elements ('/' :: xs) = [] :: elements xs := by
  simp [elements]

/-- Characters without separator in front of a path join its first element. -/
theorem elements_append (e : List Char) (he : '/' ∉ e) (xs x : List Char)
    (es : List (List Char)) (h : elements xs = x :: es) :
    elements (e ++ xs) = (e ++ x) :: es := by
  induction e with
  | nil => simpa using h
  | cons c e ih =>
    have hc : c ≠ '/' := fun h0 => he (h0 ▸ List.mem_cons_self _ _)
    have he2 : '/' ∉ e := fun h0 => he (List.mem_cons_of_mem _ h0)
    simp [elements, hc, ih he2]

theorem elements_rootedPath (cs : List (List Char)) (hcs : ∀ c ∈ cs, '/' ∉ c) (t : List Char) :
    elements (rootedPath cs ++ '/' :: t) = [] :: (cs ++ elements t) := by
  induction cs with
  | nil => simp [rootedPath, elements_slash]
  | cons c cs ih =>
    have ih2 := ih (fun x hx => hcs x (List.mem_cons_of_mem _ hx))
    have h1 := elements_append c (hcs c (List.mem_cons_self _ _)) _ _ _ ih2
    have h2 : rootedPath (c :: cs) ++ '/' :: t = '/' :: (c ++ (rootedPath cs ++ '/' :: t)) := by
      simp [rootedPath]
    rw [h2, elements_slash, h1]
    simp

theorem cleanLoop_names (rooted : Bool) (cs : List (List Char)) (hcs : ∀ c ∈ cs, isName c) :
    ∀ (tl out : List (List Char)),
      cleanLoop rooted (cs ++ tl) out = cleanLoop rooted tl (cs.reverse ++ out) := by
  induction cs with
  | nil => intro tl out; rfl
  | cons c cs ih =>
    intro tl out
    obtain ⟨h1, _, h3, h4⟩ := hcs c (List.mem_cons_self _ _)
    rw [List.cons_append]
    simp only [cleanLoop, h1, h3, h4, or_self, if_false]
    rw [ih (fun x hx => hcs x (List.mem_cons_of_mem _ hx))]
    simp

theorem cleanLoop_empty_element (rooted : Bool) (es out : List (List Char)) :
    cleanLoop rooted ([] :: es) out = cleanLoop rooted es out := by
  simp [cleanLoop]

theorem slash_intercalate (cs : List (List Char)) (h : cs ≠ []) :
    '/' :: List.intercalate ['/'] cs = rootedPath cs := by
  induction cs with
  | nil => exact absurd rfl h
  | cons c cs ih =>
    cases cs with
    | nil => simp [rootedPath, List.intercalate]
    | cons d ds =>
      have ih2 := ih (by simp)
      simp only [rootedPath, List.map_cons, List.flatten_cons] at ih2 ⊢
      rw [← ih2]
      simp [List.intercalate, List.intersperse]

theorem head?_rootedPath_append (cs : List (List Char)) (t : List Char) :
    (rootedPath cs ++ '/' :: t).head? = some '/' := by
  cases cs with
  | nil => rfl
  | cons c cs => simp [rootedPath]

/-- `Clean` of the directory part `/c1/.../ck/` of a clean absolute path is `/c1/.../ck`, and `/`
when there is no element. -/
theorem Clean_dirPart (cs : List (List Char)) (hcs : ∀ c ∈ cs, isName c) :
    Clean ⟨rootedPath cs ++ ['/']⟩ = ⟨'/' :: List.intercalate ['/'] cs⟩ := by
  have hel := elements_rootedPath cs (fun c hc => (hcs c hc).2.1) []
  have hloop : cleanLoop true ([] :: (cs ++ [[]])) [] = cs.reverse := by
    rw [cleanLoop_empty_element, cleanLoop_names true cs hcs]
    simp [cleanLoop]
  have hhead := head?_rootedPath_append cs []
  simp only [Clean]
  simp only [hhead, decide_True, hel]
  have hel2 : elements [] = [[]] := rfl
  rw [hel2, hloop]
  simp [String.ext_iff]

/-- `Clean` leaves the clean absolute path `/c1/.../ck/b` as it is. -/
theorem Clean_rootedPath (cs : List (List Char)) (b : List Char)
    (hcs : ∀ c ∈ cs, isName c) (hb : isName b) :
    Clean ⟨rootedPath cs ++ '/' :: b⟩ = ⟨rootedPath cs ++ '/' :: b⟩ := by
  have hel := elements_rootedPath cs (fun c hc => (hcs c hc).2.1) b
  have hb1 : elements b = [b] := by
    have := elements_append b hb.2.1 [] [] [] rfl
    simpa using this
  have hall : ∀ c ∈ cs ++ [b], isName c := by
    intro c hc
    rcases List.mem_append.1 hc with h | h
    · exact hcs c h
    · rw [List.mem_singleton.1 h]; exact hb
  have hloop : cleanLoop true ([] :: (cs ++ [b])) [] = (cs ++ [b]).reverse := by
    rw [cleanLoop_empty_element]
    have := cleanLoop_names true (cs ++ [b]) hall [] []
    rw [List.append_nil] at this
    rw [this]
    simp [cleanLoop]
  have hhead := head?_rootedPath_append cs b
  simp only [Clean]
  simp only [hhead, decide_True, hel, hb1]
  rw [hloop, List.reverse_reverse]
  have hsl := slash_intercalate (cs ++ [b]) (by simp)
  simp only [if_true]
  apply String.ext
  show '/' :: List.intercalate ['/'] (cs ++ [b]) = rootedPath cs ++ '/' :: b
  rw [hsl]
  simp [rootedPath]

theorem dropWhile_append_of_all (p : Char → Bool) (xs ys : List Char) (h : ∀ x ∈ xs, p x = true) :
    (xs ++ ys).dropWhile p = ys.dropWhile p := by
  induction xs with
  | nil => rfl
  | cons x xs ih =>
    rw [List.cons_append, List.dropWhile_cons, if_pos (h x (List.mem_cons_self _ _))]
    exact ih (fun y hy => h y (List.mem_cons_of_mem _ hy))

/-- `Dir` of the clean absolute path `/c1/.../ck/b` is `/c1/.../ck`, and `/` when `k = 0`. -/
theorem Dir_rootedPath (cs : List (List Char)) (b : List Char)
    (hcs : ∀ c ∈ cs, isName c) (hb : isName b) :
    Dir ⟨rootedPath cs ++ '/' :: b⟩ = ⟨'/' :: List.intercalate ['/'] cs⟩ := by
  have hrev : ((rootedPath cs ++ '/' :: b).reverse.dropWhile (fun c => c ≠ '/')).reverse
      = rootedPath cs ++ ['/'] := by
    have h1 : (rootedPath cs ++ '/' :: b).reverse = b.reverse ++ '/' :: (rootedPath cs).reverse := by
      simp
    rw [h1, dropWhile_append_of_all]
    · simp [List.dropWhile_cons]
    · intro x hx
      have hx2 : x ∈ b := List.mem_reverse.1 hx
      have : x ≠ '/' := fun h0 => hb.2.1 (h0 ▸ hx2)
      simpa using this
  simp only [Dir]
  rw [hrev]
  exact Clean_dirPart cs hcs

/-- The two `TrimPrefix` of `getSource`, on a clean absolute path cut by its own directory, leave
the last element of the path. -/
theorem trim_dir_rootedPath (cs : List (List Char)) (b : List Char)
    (hcs : ∀ c ∈ cs, isName c) (hb : isName b) :
    strings.TrimPrefix
        (strings.TrimPrefix ⟨rootedPath cs ++ '/' :: b⟩ (Dir ⟨rootedPath cs ++ '/' :: b⟩)) "/"
      = ⟨b⟩ := by
  rw [Dir_rootedPath cs b hcs hb]
  have hnoslash : strings.HasPrefix ⟨b⟩ "/" = false := by
    cases b with
    | nil => exact absurd rfl hb.1
    | cons x xs =>
      have hx : x ≠ '/' := fun h0 => hb.2.1 (h0 ▸ List.mem_cons_self _ _)
      have hx2 : ('/' == x) = false := by
        simpa [beq_eq_false_iff_ne] using fun h0 : '/' = x => hx h0.symm
      simp [strings.HasPrefix, List.isPrefixOf, hx2]
  cases cs with
  | nil =>
    have h1 : (⟨rootedPath [] ++ '/' :: b⟩ : String) = "/" ++ ⟨b⟩ := rfl
    have h2 : (⟨'/' :: List.intercalate ['/'] ([] : List (List Char))⟩ : String) = "/" := rfl
    rw [h1, h2, log.trimPrefix_append, log.trimPrefix_of_not_hasPrefix _ _ hnoslash]
  | cons c cs =>
    rw [slash_intercalate (c :: cs) (by simp)]
    have h1 : (⟨rootedPath (c :: cs) ++ '/' :: b⟩ : String)
        = ⟨rootedPath (c :: cs)⟩ ++ ("/" ++ ⟨b⟩) := rfl
    rw [h1, log.trimPrefix_append, log.trimPrefix_append]

end filepath

namespace dabug

open runtime (Frame)

theorem isName_data (c : String) (h : c ≠ "" ∧ '/' ∉ c.data ∧ c ≠ "." ∧ c ≠ "..") :
    filepath.isName c.data := by
  obtain ⟨h1, h2, h3, h4⟩ := h
  refine ⟨fun h0 => h1 (String.ext h0), h2, fun h0 => h3 (String.ext h0),
    fun h0 => h4 (String.ext h0)⟩

theorem data_cleanPath (comps : List String) (base : String) :
    String.join (comps.map fun c => "/" ++ c) ++ "/" ++ base
      = ⟨filepath.rootedPath (comps.map String.data) ++ '/' :: base.data⟩ := by
  apply String.ext
  simp [String.join_eq, filepath.rootedPath, List.map_map, Function.comp_def]

/-- C17: `getSource` cuts the file of the calling frame by the directory of that same file:
`runtime.Callers(4, ...)` and `runtime.Caller(3)` both reach the frame of the call site. For a
caller whose file is the clean absolute path `/c1/.../ck/base` (every element a proper name: not
empty, without `/`, neither `.` nor `..`), which `Clean` leaves as it is, the file captured is
`base`, without any `/`; the entry that `Msg` makes from there carries the prefix built from
`base` and the line alone, so callers in different directories with the same file name and line
get the same prefix. -/
theorem getSource_reports_base_name (comps : List String) (base : String)
    (a b caller : Frame) (rest : List Frame)
    (hcomps : ∀ c ∈ comps, c ≠ "" ∧ '/' ∉ c.data ∧ c ≠ "." ∧ c ≠ "..")
    (hbase : base ≠ "" ∧ '/' ∉ base.data ∧ base ≠ "." ∧ base ≠ "..")
    (hfile : caller.File = String.join (comps.map fun c => "/" ++ c) ++ "/" ++ base) :
    filepath.Clean caller.File = caller.File ∧
    runtime.Callers 4 (frame "getSource" 180 :: a :: b :: caller :: rest) = caller ∧
    runtime.Caller 3 (frame "getSource" 186 :: a :: b :: caller :: rest) = caller.File ∧
    getSource (a :: b :: caller :: rest)
      = { File := base, Function := caller.Function, Line := caller.Line } ∧
    '/' ∉ (getSource (a :: b :: caller :: rest)).File.data ∧
    (∀ (st : State) (m : String), st.autoflush = false →
      Msg (caller :: rest) m st = some { st with
        lines := st.lines ++ [{
          msg := m
          src := { File := base, Function := caller.Function, Line := caller.Line }
          prefix_ := st.defPrefix ++ base ++ ":" ++ toString caller.Line ++ " " }] }) := by
  have hcs : ∀ c ∈ comps.map String.data, filepath.isName c := by
    intro c hc
    obtain ⟨x, hx, rfl⟩ := List.mem_map.1 hc
    exact isName_data x (hcomps x hx)
  have hb := isName_data base hbase
  have hdata := (data_cleanPath comps base).symm ▸ hfile
  have hsrc : ∀ x y : Frame, getSource (x :: y :: caller :: rest)
      = { File := base, Function := caller.Function, Line := caller.Line } := by
    intro x y
    rw [getSource_caller, hdata, filepath.trim_dir_rootedPath _ _ hcs hb]
  refine ⟨?_, rfl, rfl, hsrc a b, ?_, ?_⟩
  · rw [hdata]
    exact filepath.Clean_rootedPath _ _ hcs hb
  · rw [hsrc a b]
    exact hbase.2.1
  · intro st m h
    have := run_buffered (.Msg (caller :: rest) m) st h
    simp only [Call.run] at this
    rw [this]
    simp only [Call.entry, Call.src, Call.msg, hsrc, prefixText]
    simp [String.ext_iff]

theorem getSource_reports_base_name_witness :
    (∀ c ∈ ["home", "u", "proj"], c ≠ "" ∧ '/' ∉ c.data ∧ c ≠ "." ∧ c ≠ "..") ∧
    ("a.go" ≠ "" ∧ '/' ∉ "a.go".data ∧ "a.go" ≠ "." ∧ "a.go" ≠ "..") ∧
    getSource [frame "appendMsg" 160, frame "Msg" 72, ⟨"/home/u/proj/a.go", "main.main", 1⟩]
      = { File := "a.go", Function := "main.main", Line := 1 } :=
  ⟨by decide, by decide,
    (getSource_reports_base_name ["home", "u", "proj"] "a.go" (frame "appendMsg" 160)
      (frame "Msg" 72) ⟨"/home/u/proj/a.go", "main.main", 1⟩ [] (by decide) (by decide)
      (by decide)).2.2.2.1⟩

end dabug
